import Mathlib

/-!
Verification development for the hpxml-schema-api core.

This file gives a shallow embedding, in Lean 4, of the core components of the
hpxml-schema-api Python package and proves properties of them:

* the normalized tree data model (`models.py`: `RuleNode`, `ValidationRule`);
* the XSD-to-tree recursive builder (`xsd_parser.py`: `XSDParser._build_node`,
  `_parse_complex_content`, `_resolve_reference`, the type indexes and the
  enumeration/extension-chain walks);
* the Schematron rule extraction and attachment pass
  (`schematron_parser.py`: `SchematronParser.iter_rules`, `attach_to_tree`,
  `_normalize_xpath`);
* the local TTL/staleness cache and the distributed cache with local
  fallback (`cache.py`: `SchemaCache`, `CacheEntry`, `DistributedCache`);
* the version registry (`version_manager.py`: `VersionManager`).

Modelling conventions:

* Python `float` timestamps are modelled as rationals (`ℚ`); Python `int`
  is modelled as `ℤ`.
* Mutated guard sets (`visited`, `ref_chain`) and the resolved-reference
  memo cache are threaded explicitly through the recursion as a state
  record; a Python `raise` is modelled as `Except.error`.
* XML elements are modelled by a tree of tags, attribute lists and child
  elements; `ElementTree` serialisation round-trips (`tostring`/`fromstring`)
  are modelled as the identity on that tree.
* Python dictionaries are modelled as association lists with
  insert-or-replace update, preserving insertion order like `dict` does.
-/

/-- Insert-or-replace update of an association list, modelling Python
`dict.__setitem__`: an existing key is overwritten in place, a new key is
appended at the end (dicts preserve insertion order). -/
def dictSet {α : Type} (m : List (String × α)) (k : String) (v : α) :
    List (String × α) :=
  match m with
  | [] => [(k, v)]
  | (k0, v0) :: rest =>
      if k0 = k then (k0, v) :: rest else (k0, v0) :: dictSet rest k v

/-- Lookup in an association list, modelling Python `dict.get`. -/
def dictGet {α : Type} (m : List (String × α)) (k : String) : Option α :=
  match m with
  | [] => none
  | (k0, v0) :: rest => if k0 = k then some v0 else dictGet rest k

/-- Membership test on the keys of an association list (`k in d`). -/
def dictMem {α : Type} (m : List (String × α)) (k : String) : Bool :=
  match m with
  | [] => false
  | (k0, _) :: rest => k0 = k || dictMem rest k

/-- Key removal from an association list (`dict.pop(k, None)` /
`del d[k]`). -/
def dictDel {α : Type} (m : List (String × α)) (k : String) :
    List (String × α) :=
  match m with
  | [] => []
  | (k0, v0) :: rest => if k0 = k then rest else (k0, v0) :: dictDel rest k

/-- Model of an `xml.etree.ElementTree.Element`: a tag, an attribute
dictionary and a list of child elements. -/
inductive XElem : Type where
  | mk (tag : String) (attrib : List (String × String)) (children : List XElem)

/-- Tag of an XML element. -/
def XElem.tag : XElem → String
  | .mk t _ _ => t

/-- Attribute dictionary of an XML element. -/
def XElem.attrib : XElem → List (String × String)
  | .mk _ a _ => a

/-- Child elements of an XML element. -/
def XElem.children : XElem → List XElem
  | .mk _ _ c => c

/-- Attribute access, modelling `Element.get(key)` (returns `None` when the
attribute is absent). -/
def XElem.get (e : XElem) (k : String) : Option String :=
  dictGet e.attrib k

/-- Attribute update, modelling `Element.set(key, value)`. -/
def XElem.set (e : XElem) (k v : String) : XElem :=
  .mk e.tag (dictSet e.attrib k v) e.children

/-- Attribute removal, modelling `Element.attrib.pop(key, None)`. -/
def XElem.popAttr (e : XElem) (k : String) : XElem :=
  .mk e.tag (dictDel e.attrib k) e.children

/-- Bulk attribute update, modelling `Element.attrib.update(other)`. -/
def XElem.updateAttrs (e : XElem) (other : List (String × String)) : XElem :=
  .mk e.tag (other.foldl (fun m kv => dictSet m kv.1 kv.2) e.attrib) e.children

/-- First child element with the given tag, modelling `Element.find(tag)`. -/
def XElem.find (e : XElem) (t : String) : Option XElem :=
  e.children.find? (fun c => c.tag == t)

/-- All child elements with the given tag, modelling
`Element.findall(tag)`. -/
def XElem.findall (e : XElem) (t : String) : List XElem :=
  e.children.filter (fun c => c.tag == t)

/-- The XML Schema namespace prefix `{http://www.w3.org/2001/XMLSchema}`
used on every tag the parser looks for (`XS_NS` in `xsd_parser.py`). -/
def XS_NS : String := "{http://www.w3.org/2001/XMLSchema}"

/-! Character-level models of the Python string operations the sources use
(`str.strip`, `str.lower`, `str.replace`, `str.split`, `str.isdigit`,
`int(...)`). They are defined structurally over the character list of the
string so that concrete runs evaluate inside Lean. -/

/-- Model of Python `str.strip()`: drop whitespace from both ends. -/
def pyStrip (s : String) : String :=
  String.mk (((s.data.dropWhile Char.isWhitespace).reverse.dropWhile
    Char.isWhitespace).reverse)

/-- Model of Python `str.lower()` on the ASCII identifiers the sources
lower-case. -/
def pyLower (s : String) : String :=
  String.mk (s.data.map Char.toLower)

/-- Replacement of every non-overlapping occurrence of `pat` (scanning left
to right) by `repl`; `skip` counts characters of a just-matched occurrence
still to consume. -/
def replaceGo (pat repl : List Char) : List Char → Nat → List Char
  | [], _ => []
  | _ :: rest, skip + 1 => replaceGo pat repl rest skip
  | c :: rest, 0 =>
      if !pat.isEmpty && pat.isPrefixOf (c :: rest) then
        repl ++ replaceGo pat repl rest (pat.length - 1)
      else c :: replaceGo pat repl rest 0

/-- Model of Python `str.replace(old, new)` (all occurrences). -/
def pyReplace (s old new : String) : String :=
  String.mk (replaceGo old.data new.data s.data 0)

/-- Characters after the first occurrence of `sep`, when any
(`value.split(sep, 1)[1]`). -/
def afterFirst (sep : Char) : List Char → Option (List Char)
  | [] => none
  | c :: rest => if c = sep then some rest else afterFirst sep rest

/-- Model of Python `str.split(sep)` for a one-character separator. -/
def splitOnChar (sep : Char) : List Char → List (List Char)
  | [] => [[]]
  | c :: rest =>
      let r := splitOnChar sep rest
      if c = sep then [] :: r
      else
        match r with
        | g :: gs => (c :: g) :: gs
        | [] => [[c]]

/-- Model of Python `str.isdigit` on the ASCII strings occurring in
schemas: nonempty and all characters digits. -/
def pyIsDigit (s : String) : Bool :=
  !s.data.isEmpty && s.data.all Char.isDigit

/-- Value of a digit string (`int(...)` on a string `str.isdigit` accepts). -/
def digitsToNat (cs : List Char) : Nat :=
  cs.foldl (fun n c => 10 * n + (c.toNat - 48)) 0

/-- Model of Python `int(...)` as the version parser uses it: defined on
numeric strings, failing (raising `ValueError`) elsewhere. -/
def pyInt? (s : String) : Option Nat :=
  if pyIsDigit s then some (digitsToNat s.data) else none

/-- Model of `models.ValidationRule`: one validation constraint. -/
structure ValidationRule : Type where
  message : String
  severity : String := "error"
  test : Option String := none
  context : Option String := none
deriving DecidableEq

/-- Model of `models.RuleNode`: one schema element or field, with the same
fields in the same order as the Python dataclass. -/
structure RuleNode : Type where
  xpath : String
  name : String
  kind : String
  data_type : Option String := none
  min_occurs : Option Int := none
  max_occurs : Option String := none
  repeatable : Bool := false
  enum_values : List String := []
  description : Option String := none
  validations : List ValidationRule := []
  notes : List String := []
  children : List RuleNode := []

mutual

/-- Structural (field-by-field) equality test on `RuleNode`, modelling the
dataclass `__eq__` that `child_node not in children` invokes in
`XSDParser._parse_complex_content`. -/
def RuleNode.beq : RuleNode → RuleNode → Bool
  | ⟨x1, n1, k1, d1, mi1, ma1, r1, e1, ds1, v1, no1, c1⟩,
    ⟨x2, n2, k2, d2, mi2, ma2, r2, e2, ds2, v2, no2, c2⟩ =>
      x1 == x2 && n1 == n2 && k1 == k2 && d1 == d2 && mi1 == mi2 &&
      ma1 == ma2 && r1 == r2 && e1 == e2 && ds1 == ds2 && v1 == v2 &&
      no1 == no2 && RuleNode.beqList c1 c2

/-- Pointwise `RuleNode.beq` on lists (children comparison). -/
def RuleNode.beqList : List RuleNode → List RuleNode → Bool
  | [], [] => true
  | a :: as, b :: bs => RuleNode.beq a b && RuleNode.beqList as bs
  | _, _ => false

end

instance : BEq RuleNode := ⟨RuleNode.beq⟩

mutual

/-- Depth-first preorder traversal of a `RuleNode` tree, modelling
`RuleNode.iter_nodes` (and `schematron_parser._iter_nodes`). -/
def RuleNode.iterNodes : RuleNode → List RuleNode
  | n@⟨_, _, _, _, _, _, _, _, _, _, _, cs⟩ => n :: RuleNode.iterNodesList cs

/-- Depth-first preorder traversal of a list of `RuleNode` trees. -/
def RuleNode.iterNodesList : List RuleNode → List RuleNode
  | [] => []
  | c :: cs => RuleNode.iterNodes c ++ RuleNode.iterNodesList cs

end

mutual

/-- All nodes exactly `ℓ` structural levels below a given root node. -/
def nodesAtLevel : Nat → RuleNode → List RuleNode
  | 0, n => [n]
  | ℓ + 1, n => nodesAtLevelList ℓ n.children
termination_by ℓ _ => (ℓ, 0)
decreasing_by
  apply Prod.Lex.left
  omega

/-- All nodes exactly `ℓ` structural levels below the members of a child
list. -/
def nodesAtLevelList (ℓ : Nat) : List RuleNode → List RuleNode
  | [] => []
  | c :: cs => nodesAtLevel ℓ c ++ nodesAtLevelList ℓ cs
termination_by cs => (ℓ, cs.length + 1)
decreasing_by
  · apply Prod.Lex.right
    omega
  · apply Prod.Lex.right
    simp [List.length_cons]

end

/-! ## Cache layer (`cache.py`) -/

/-- Stat record for a file as the OS reports it: modification time and the
md5 hex digest of its content (the digest is provided by the environment,
like the mtime). -/
structure FileStat : Type where
  mtime : ℚ
  etagHex : String

/-- Model of the filesystem as consulted by the cache layer: each path is
either absent (`Path.exists()` false) or has a stat record. -/
def FileSys : Type := String → Option FileStat

/-- Model of `cache.CacheEntry`: cached payload with TTL and staleness
metadata. -/
structure CacheEntry (α : Type) : Type where
  data : α
  timestamp : ℚ
  ttl : ℚ := 3600
  etag : String := ""
  file_mtime : ℚ := 0

/-- Model of `CacheEntry.is_expired`: `time.time() - self.timestamp >
self.ttl`, with `now` passed explicitly. -/
def CacheEntry.isExpired {α : Type} (e : CacheEntry α) (now : ℚ) : Bool :=
  decide (now - e.timestamp > e.ttl)

/-- Model of `CacheEntry.is_stale`: a missing file is stale; otherwise the
entry is stale when the current mtime is newer than the recorded one. -/
def CacheEntry.isStale {α : Type} (e : CacheEntry α) (fs : FileSys)
    (path : String) : Bool :=
  match fs path with
  | none => true
  | some st => decide (st.mtime > e.file_mtime)

/-- Model of `cache.SchemaCache`: the in-memory TTL + staleness cache
(monitoring hooks are omitted: they are observational only). -/
structure SchemaCache (α : Type) : Type where
  default_ttl : ℚ := 3600
  cache : List (String × CacheEntry α) := []

/-- Model of `SchemaCache.get`: return the value if present and not
expired; evict and miss when expired. Returns the value and the updated
cache state. -/
def SchemaCache.get {α : Type} (c : SchemaCache α) (key : String) (now : ℚ) :
    Option α × SchemaCache α :=
  match dictGet c.cache key with
  | none => (none, c)
  | some entry =>
      if entry.isExpired now then
        (none, { c with cache := dictDel c.cache key })
      else
        (some entry.data, c)

/-- Model of `SchemaCache.set`: store the value with `ttl or default_ttl`
and, when a source file is given and exists, its mtime and content hash. -/
def SchemaCache.set {α : Type} (c : SchemaCache α) (key : String) (data : α)
    (ttl : Option ℚ) (file_path : Option String) (fs : FileSys) (now : ℚ) :
    SchemaCache α :=
  let stat : Option FileStat :=
    match file_path with
    | some p => fs p
    | none => none
  let file_mtime : ℚ := match stat with | some st => st.mtime | none => 0
  let etag : String := match stat with | some st => st.etagHex | none => ""
  let effTtl : ℚ :=
    (match ttl with
     | some t => if t = 0 then c.default_ttl else t
     | none => c.default_ttl)
  let entry : CacheEntry α :=
    { data := data, timestamp := now, ttl := effTtl, etag := etag,
      file_mtime := file_mtime }
  { c with cache := dictSet c.cache key entry }

/-- Model of `SchemaCache.invalidate`. -/
def SchemaCache.invalidate {α : Type} (c : SchemaCache α) (key : String) :
    SchemaCache α :=
  { c with cache := dictDel c.cache key }

/-- Model of `SchemaCache.clear`. -/
def SchemaCache.clear {α : Type} (c : SchemaCache α) : SchemaCache α :=
  { c with cache := [] }

/-- Model of `SchemaCache.check_file_staleness`: absent entries are stale,
otherwise defer to `CacheEntry.is_stale`. -/
def SchemaCache.checkFileStaleness {α : Type} (c : SchemaCache α)
    (key : String) (path : String) (fs : FileSys) : Bool :=
  match dictGet c.cache key with
  | none => true
  | some entry => entry.isStale fs path

/-- Payload universe of the distributed cache's embedded fallback cache: a
raw payload (stored by the failure paths under the plain key) or the mirror
record `{"_mirror": True, "data": ..., "file_mtime": ...}` stored under the
namespaced key by a successful backend `set`. -/
inductive DistVal (α : Type) : Type where
  | raw (data : α)
  | mirror (data : α) (file_mtime : ℚ)

/-- Key-value store of the external backend. Serialized payload blobs live
under the namespaced keys and the small metadata records under the derived
`<key>:meta` keys; the two keyspaces are modelled as two maps.
Serialization is modelled as lossless (the pickle round-trip); its
degradation cascade is out of scope here. -/
structure RedisStore (α : Type) : Type where
  values : List (String × α) := []
  metas : List (String × (ℚ × String)) := []

/-- Model of `cache.DistributedCache`: prefix, embedded local fallback
cache, optional backend handle with its key-value store, and the
availability flag. -/
structure DistributedCache (α : Type) : Type where
  default_ttl : ℚ := 3600
  redis_prefix : String := "hpxml:"
  fallback_cache : SchemaCache (DistVal α)
  redis : Option (RedisStore α)
  redis_available : Bool

/-- Model of `DistributedCache._make_key`: prefix plus the md5 digest of
the argument tuple; the digest is modelled by the argument string itself
(md5 is treated as injective). -/
def DistributedCache.makeKey {α : Type} (c : DistributedCache α)
    (key : String) : String :=
  c.redis_prefix ++ key

/-- Model of `DistributedCache.get`. `failNow` is the failure oracle for
the backend call this invocation performs: when the backend raises, the
cache flips to unavailable and serves the call from the fallback cache. -/
def DistributedCache.get {α : Type} (c : DistributedCache α) (key : String)
    (failNow : Bool) (now : ℚ) : Option (DistVal α) × DistributedCache α :=
  if !c.redis_available || c.redis.isNone then
    let r := c.fallback_cache.get key now
    (r.1, { c with fallback_cache := r.2 })
  else if failNow then
    let c1 : DistributedCache α := { c with redis_available := false }
    let r := c1.fallback_cache.get key now
    (r.1, { c1 with fallback_cache := r.2 })
  else
    match c.redis with
    | none => (none, c)
    | some store =>
        match dictGet store.values (c.makeKey key) with
        | none => (none, c)
        | some a => (some (.raw a), c)

/-- Model of `DistributedCache.set`. On a backend failure the cache flips
to unavailable and the value is stored in the fallback cache under the
plain key; on success the serialized value (and file metadata) go to the
backend under the namespaced key and a mirror record goes to the fallback
cache. -/
def DistributedCache.set {α : Type} (c : DistributedCache α) (key : String)
    (data : α) (ttl : Option ℚ) (file_path : Option String) (fs : FileSys)
    (failNow : Bool) (now : ℚ) : DistributedCache α :=
  let effective_ttl : ℚ :=
    match ttl with
    | some t => if t = 0 then c.default_ttl else t
    | none => c.default_ttl
  if !c.redis_available || c.redis.isNone then
    { c with fallback_cache :=
        c.fallback_cache.set key (.raw data) ttl file_path fs now }
  else if failNow then
    { c with redis_available := false,
             fallback_cache :=
               c.fallback_cache.set key (.raw data) ttl file_path fs now }
  else
    match c.redis with
    | none => c
    | some store =>
        let redis_key := c.makeKey key
        let store1 : RedisStore α :=
          { store with values := dictSet store.values redis_key data }
        let stat : Option FileStat :=
          match file_path with
          | some p => fs p
          | none => none
        let store2 : RedisStore α :=
          match stat with
          | some st =>
              ({ store1 with
                 metas := dictSet store1.metas (redis_key ++ ":meta") (st.mtime, st.etagHex) })
          | none => store1
        let mirror_mtime : ℚ :=
          (match stat with | some st => st.mtime | none => 0)
        { c with redis := some store2,
                 fallback_cache :=
                   c.fallback_cache.set redis_key (.mirror data mirror_mtime)
                     (some effective_ttl) file_path fs now }

/-- Model of `DistributedCache.invalidate`: delete from the backend (a
failure flips availability), then from the fallback cache under both the
namespaced and the plain key. -/
def DistributedCache.invalidate {α : Type} (c : DistributedCache α)
    (key : String) (failNow : Bool) : DistributedCache α :=
  let c1 : DistributedCache α :=
    if c.redis_available && c.redis.isSome then
      if failNow then { c with redis_available := false }
      else
        match c.redis with
        | none => c
        | some store =>
            let store2 : RedisStore α :=
              { store with
                values := dictDel store.values (c.makeKey key),
                metas := dictDel store.metas (c.makeKey key ++ ":meta") }
            { c with redis := some store2 }
    else c
  { c1 with fallback_cache :=
      (c1.fallback_cache.invalidate (c1.makeKey key)).invalidate key }

/-- Model of `DistributedCache.clear`: clear the fallback cache, then flush
the backend (a failure flips availability). -/
def DistributedCache.clear {α : Type} (c : DistributedCache α)
    (failNow : Bool) : DistributedCache α :=
  let c1 : DistributedCache α :=
    { c with fallback_cache := c.fallback_cache.clear }
  if c1.redis_available && c1.redis.isSome then
    if failNow then { c1 with redis_available := false }
    else { c1 with redis := some {} }
  else c1

/-- Stats record returned by `DistributedCache.get_cache_stats` (the fields
the claims are about: backend availability, TTL, and the embedded fallback
cache's size). -/
structure DistCacheStats : Type where
  redis_available : Bool
  default_ttl : ℚ
  fallback_cache_size : Nat

/-- Model of `DistributedCache.get_cache_stats`. -/
def DistributedCache.getCacheStats {α : Type} (c : DistributedCache α) :
    DistCacheStats :=
  { redis_available := c.redis_available,
    default_ttl := c.default_ttl,
    fallback_cache_size := c.fallback_cache.cache.length }

/-! ## Version registry (`version_manager.py`) -/

/-- Model of `version_manager.SchemaVersionInfo`. -/
structure SchemaVersionInfo : Type where
  version : String
  path : String
  description : String
  release_date : Option String := none
  deprecated : Bool := false
  isDefault : Bool := false
deriving DecidableEq

/-- Model of the repository's in-tree version parser
(`_FallbackVersionModule.parse`): split on dots and read every part as an
integer, failing (raising `InvalidVersion`) when a part is not numeric.
`packaging.version.parse` agrees with it on the plain `X.Y` strings the
registry catalogues. -/
def versionParse (v : String) : Option (List Nat) :=
  ((splitOnChar (Char.ofNat 46) v.data).map String.mk).mapM pyInt?

/-- Python tuple comparison on parsed versions: lexicographic, a strict
prefix is smaller. -/
def tupLt : List Nat → List Nat → Bool
  | [], [] => false
  | [], _ :: _ => true
  | _ :: _, [] => false
  | a :: as, b :: bs => if a < b then true else if b < a then false else tupLt as bs

/-- Sort key used by `get_available_versions`: the parsed version tuple
(total on catalogues whose members all parse). -/
def versionKey (v : String) : List Nat :=
  (versionParse v).getD []

/-- The comparison `sorted(..., reverse=True)` effectively sorts by:
`a` precedes `b` when `a`'s parsed tuple is not below `b`'s. -/
def versionGe (a b : String) : Prop :=
  tupLt (versionKey a) (versionKey b) = false

instance : DecidableRel versionGe := fun a b => by
  unfold versionGe
  infer_instance

/-- Model of `version_manager.VersionManager`: the catalogue of versions
(an insertion-ordered dict, as `_load_version_catalog` filled it). -/
structure VersionManager : Type where
  versions : List (String × SchemaVersionInfo) := []

/-- Model of `VersionManager.get_available_versions`: all catalogued
version strings sorted newest → oldest by parsed-version comparison.
`sorted` raises `InvalidVersion` (modelled as `.error`) when any catalogued
string does not parse. -/
def VersionManager.getAvailableVersions (vm : VersionManager) :
    Except String (List String) :=
  let keys := vm.versions.map Prod.fst
  match keys.mapM versionParse with
  | none => .error "InvalidVersion"
  | some _ => .ok (List.insertionSort versionGe keys)

/-- Model of `VersionManager.get_default_version`: the first catalogued
version whose `default` flag is set, else the newest available version,
else `None` when nothing is catalogued. -/
def VersionManager.getDefaultVersion (vm : VersionManager) :
    Except String (Option String) :=
  match vm.versions.find? (fun p => p.2.isDefault) with
  | some p => .ok (some p.1)
  | none =>
      match vm.getAvailableVersions with
      | .error e => .error e
      | .ok versions => .ok versions.head?

/-! ## Schematron rule extraction and attachment (`schematron_parser.py`) -/

/-- Model of a Schematron `sch:assert` or `sch:report` node: message text,
`@test` and `@role` attributes. -/
structure SchAssert : Type where
  text : Option String := none
  test : Option String := none
  role : Option String := none

/-- Model of a Schematron `sch:rule` node: `@context` plus its assert and
report children. -/
structure SchRule : Type where
  context : Option String := none
  asserts : List SchAssert := []
  reports : List SchAssert := []

/-- Model of a Schematron `sch:pattern` node. -/
structure SchPattern : Type where
  rules : List SchRule := []

/-- Model of a parsed Schematron document (patterns → rules →
assert/report), as `SchematronParser` walks it. -/
structure SchematronDoc : Type where
  patterns : List SchPattern := []

/-- Model of `schematron_parser.SchematronRule`. -/
structure SchematronRule : Type where
  context : String
  message : String
  test : String
  severity : String
deriving DecidableEq

/-- The `SchematronRule` built from one `sch:assert` node:
`severity=assert_node.get("role", "ERROR").lower()`. -/
def mkAssertRule (context : String) (a : SchAssert) : SchematronRule :=
  { context := context,
    message := pyStrip (a.text.getD ""),
    test := a.test.getD "",
    severity := pyLower (a.role.getD "ERROR") }

/-- The `SchematronRule` built from one `sch:report` node:
`severity=report_node.get("role", "WARN").lower()`. -/
def mkReportRule (context : String) (a : SchAssert) : SchematronRule :=
  { context := context,
    message := pyStrip (a.text.getD ""),
    test := a.test.getD "",
    severity := pyLower (a.role.getD "WARN") }

/-- The rules one `sch:rule` node yields in `iter_rules`: nothing when the
context is absent or empty (`if not context: continue`), else one
`SchematronRule` per assert then per report. -/
def schRuleRules (r : SchRule) : List SchematronRule :=
  match r.context with
  | none => []
  | some ctx =>
      if ctx = "" then []
      else r.asserts.map (mkAssertRule ctx) ++ r.reports.map (mkReportRule ctx)

/-- Model of `SchematronParser.iter_rules`: patterns → rules →
assert/report, in document order. -/
def iterRules (d : SchematronDoc) : List SchematronRule :=
  (d.patterns.map (fun p => (p.rules.map schRuleRules).flatten)).flatten

/-- Model of `schematron_parser._normalize_xpath`: strip every `h:`
namespace-prefix occurrence (`str.replace` replaces all) and trim
whitespace. -/
def normalizeXpath (xpath : String) : String :=
  pyStrip (pyReplace xpath "h:" "")

/-- The `ValidationRule` appended by `attach_to_tree` for a matching rule:
original (non-normalized) context and test preserved. -/
def mkValidationRule (r : SchematronRule) : ValidationRule :=
  { message := r.message, severity := r.severity,
    test := some r.test, context := some r.context }

/-- The `context_map` of `attach_to_tree`: normalized xpath of every node of
the tree (in `iter_nodes` order) mapped to the node, with later nodes
overwriting earlier ones on a collision, exactly as the Python dict fill
does. A node is identified by its depth-first preorder index, which is the
model of Python object identity (every node object occurs exactly once in a
parsed tree). -/
def buildContextMap (root : RuleNode) : List (String × Nat) :=
  (root.iterNodes.enum).foldl
    (fun m p => dictSet m (normalizeXpath p.2.xpath) p.1) []

/-- The validations `attach_to_tree` appends to the node at preorder index
`i`: every extracted rule whose normalized context resolves to `i` in the
context map, in rule order (the in-place `validations.append` calls). -/
def attachedValidations (d : SchematronDoc) (cmap : List (String × Nat))
    (i : Nat) : List ValidationRule :=
  ((iterRules d).filter
    (fun r => dictGet cmap (normalizeXpath r.context) == some i)).map
    mkValidationRule

mutual

/-- Rebuild of a tree where the node at preorder index `i` (the root being
at the given index) gets `extra i` appended to its validations. -/
def attachAt (extra : Nat → List ValidationRule) : RuleNode → Nat → RuleNode
  | n@⟨_, _, _, _, _, _, _, _, _, _, _, cs⟩, i =>
      { n with validations := n.validations ++ extra i,
               children := attachAtList extra cs (i + 1) }

/-- Rebuild of a sibling list starting at preorder index `i`. -/
def attachAtList (extra : Nat → List ValidationRule) :
    List RuleNode → Nat → List RuleNode
  | [], _ => []
  | c :: cs, i => attachAt extra c i :: attachAtList extra cs (i + c.iterNodes.length)

end

/-- Model of `SchematronParser.attach_to_tree`: build the context map once,
then append a `ValidationRule` to each node some extracted rule's
normalized context resolves to; rules whose context matches no node are
dropped. The Python pass mutates the nodes in place; the model returns the
tree it leaves behind. -/
def attachToTree (d : SchematronDoc) (root : RuleNode) : RuleNode :=
  let cmap := buildContextMap root
  attachAt (attachedValidations d cmap) root 0

/-! ## XSD parser (`xsd_parser.py`) -/

/-- Model of `xsd_parser._local_name`: strip everything up to the first
colon (`value.split(":", 1)[1]`). -/
def localName : Option String → Option String
  | none => none
  | some v =>
      match afterFirst (Char.ofNat 58) v.data with
      | some rest => some (String.mk rest)
      | none => some v

/-- Model of `xsd_parser._parse_occurs`: absent → 1, digits → the number,
otherwise `None`. -/
def parseOccurs : Option String → Option Int
  | none => some 1
  | some v => if pyIsDigit v then some ((digitsToNat v.data : Nat) : Int) else none

/-- Model of `xsd_parser.SimpleType` (the indexed simple-type record: name,
localised base name, enumeration values). -/
structure SimpleType : Type where
  name : String
  base : Option String
  enumerations : List String

/-- Model of `xsd_parser.ParserConfig` with the source defaults. -/
structure ParserConfig : Type where
  max_extension_depth : Int := 3
  max_recursion_depth : Int := 10
  track_extension_metadata : Bool := true
  resolve_extension_refs : Bool := false
  cache_resolved_refs : Bool := true
deriving DecidableEq

/-- Model of a constructed `xsd_parser.XSDParser` instance: configuration,
schema document root, and the indexes `__init__` builds (`simple_types`,
`complex_types`, `reference_cache`, `extension_chains`). -/
structure XSDParser : Type where
  config : ParserConfig
  root : XElem
  simple_types : List (String × SimpleType) := []
  complex_types : List (String × XElem) := []
  reference_cache : Option (List (String × XElem)) := none
  extension_chains : List (String × List String) := []

/-- Model of `XSDParser._find_element`: first top-level `xs:element` child
of the schema root whose `name` attribute equals the requested name. -/
def XSDParser.findElement (p : XSDParser) (name : String) : Option XElem :=
  (p.root.findall (XS_NS ++ "element")).find? (fun e => e.get "name" == some name)

/-- Model of `XSDParser._index_simple_types`: scan top-level
`xs:simpleType` declarations into the name → (base, enumerations) map,
skipping unnamed ones. -/
def indexSimpleTypes (root : XElem) : List (String × SimpleType) :=
  (root.findall (XS_NS ++ "simpleType")).foldl
    (fun m node =>
      match node.get "name" with
      | none => m
      | some name =>
          if name = "" then m
          else
            let restriction := node.find (XS_NS ++ "restriction")
            let base : Option String :=
              match restriction with
              | some r => r.get "base"
              | none => none
            let enums : List String :=
              match restriction with
              | some r => (r.findall (XS_NS ++ "enumeration")).filterMap
                  (fun e => e.get "value")
              | none => []
            dictSet m name
              { name := name, base := localName base, enumerations := enums })
    []

/-- Model of `XSDParser._index_complex_types`: scan top-level
`xs:complexType` declarations into the name → definition map. -/
def indexComplexTypes (root : XElem) : List (String × XElem) :=
  (root.findall (XS_NS ++ "complexType")).foldl
    (fun m node =>
      match node.get "name" with
      | none => m
      | some name => if name = "" then m else dictSet m name node)
    []

/-- The `complexContent/extension/@base` attribute of a complex type
definition, as `_get_extension_chain` reads it. -/
def extensionBase (typeElem : XElem) : Option String :=
  match typeElem.find (XS_NS ++ "complexContent") with
  | none => none
  | some cc =>
      match cc.find (XS_NS ++ "extension") with
      | none => none
      | some ext => ext.get "base"

/-- Model of `XSDParser._get_extension_chain`: walk the
`complexContent/extension` ancestry collecting base-type names, returning
`[]` as soon as a name repeats within the walk (cycle guard). -/
def getExtensionChain (cts : List (String × XElem)) (typeElem : XElem)
    (typeName : String) (visited : List String) : List String :=
  if hv : typeName ∈ visited then []
  else
    match extensionBase typeElem with
    | none => []
    | some base =>
        if base = "" then []
        else
          match localName (some base) with
          | none => []
          | some baseName =>
              match hg : dictGet cts baseName with
              | none => []
              | some baseElem =>
                  baseName ::
                    getExtensionChain cts baseElem baseName (typeName :: visited)
termination_by
  2 * ((cts.map Prod.fst).countP (fun n => !decide (n ∈ visited))) +
    (if typeName ∈ cts.map Prod.fst ∨ typeName ∈ visited then 0 else 1)
decreasing_by
  have hgmem : ∀ (m : List (String × XElem)) (k : String) (v : XElem),
      dictGet m k = some v → k ∈ m.map Prod.fst := by
    intro m k v h
    induction m with
    | nil => simp [dictGet] at h
    | cons kv rest ih =>
        rw [dictGet] at h
        by_cases hk : kv.1 = k
        · simp [hk]
        · simp only [hk, if_false] at h
          simp [ih h]
  have hBaseKey : baseName ∈ cts.map Prod.fst := hgmem cts baseName baseElem hg
  have hmono : ∀ (l : List String),
      l.countP (fun n => !decide (n ∈ typeName :: visited)) ≤
        l.countP (fun n => !decide (n ∈ visited)) := by
    intro l
    apply List.countP_mono_left
    intro x _ hx
    simp at hx ⊢
    tauto
  have hflagBase :
      (if baseName ∈ cts.map Prod.fst ∨ baseName ∈ typeName :: visited
       then 0 else 1) = 0 := by
    simp [hBaseKey]
  by_cases hkT : typeName ∈ cts.map Prod.fst
  · have hstrict :
        (cts.map Prod.fst).countP (fun n => !decide (n ∈ typeName :: visited)) <
          (cts.map Prod.fst).countP (fun n => !decide (n ∈ visited)) := by
      obtain ⟨s, t, hst⟩ := List.append_of_mem hkT
      rw [hst]
      rw [List.countP_append, List.countP_append, List.countP_cons,
        List.countP_cons]
      have h1 := hmono s
      have h2 := hmono t
      have hTnew : (!decide (typeName ∈ typeName :: visited)) = false := by simp
      have hTold : (!decide (typeName ∈ visited)) = true := by simp [hv]
      simp only [hTnew, hTold, Bool.false_eq_true, if_false, if_true]
      omega
    rw [hflagBase]
    omega
  · have hflagT :
        (if typeName ∈ cts.map Prod.fst ∨ typeName ∈ visited then 0 else 1) = 1 := by
      simp [hkT, hv]
    rw [hflagBase, hflagT]
    have := hmono (cts.map Prod.fst)
    omega

/-- Model of `XSDParser._index_extension_chains`: compute the chain of every
indexed complex type and record the nonempty ones. -/
def indexExtensionChains (cts : List (String × XElem)) :
    List (String × List String) :=
  cts.foldl
    (fun m kv =>
      let chain := getExtensionChain cts kv.2 kv.1 []
      if chain.isEmpty then m else dictSet m kv.1 chain)
    []

/-- Model of the `while current:` loop of
`XSDParser._collect_enum_values`: walk the simple-type base chain with a
`seen` cycle guard, concatenating enumeration values. -/
def collectEnumGo (sts : List (String × SimpleType)) :
    Option String → List String → List String → List String
  | none, _, values => values
  | some c, seen, values =>
      if c = "" then values
      else if hs : c ∈ seen then values
      else
        match hg : dictGet sts c with
        | none => values
        | some simple =>
            let values1 :=
              if simple.enumerations.isEmpty then values
              else values ++ simple.enumerations
            collectEnumGo sts simple.base (c :: seen) values1
termination_by current seen _ =>
  (sts.map Prod.fst).countP (fun n => !decide (n ∈ seen))
decreasing_by
  have hgmem : ∀ (m : List (String × SimpleType)) (k : String) (v : SimpleType),
      dictGet m k = some v → k ∈ m.map Prod.fst := by
    intro m k v h
    induction m with
    | nil => simp [dictGet] at h
    | cons kv rest ih =>
        rw [dictGet] at h
        by_cases hk : kv.1 = k
        · simp [hk]
        · simp only [hk, if_false] at h
          simp [ih h]
  obtain ⟨s, t, hst⟩ := List.append_of_mem (hgmem sts c simple hg)
  rw [hst]
  rw [List.countP_append, List.countP_append, List.countP_cons, List.countP_cons]
  have hmono : ∀ (l : List String),
      l.countP (fun n => !decide (n ∈ c :: seen)) ≤
        l.countP (fun n => !decide (n ∈ seen)) := by
    intro l
    apply List.countP_mono_left
    intro x _ hx
    simp at hx ⊢
    tauto
  have h1 := hmono s
  have h2 := hmono t
  have hTnew : (!decide (c ∈ c :: seen)) = false := by simp
  have hTold : (!decide (c ∈ seen)) = true := by simp [hs]
  simp only [hTnew, hTold, Bool.false_eq_true, if_false, if_true]
  omega

/-- Model of `XSDParser._collect_enum_values`. -/
def XSDParser.collectEnumValues (p : XSDParser) (typeName : Option String) :
    List String :=
  collectEnumGo p.simple_types (localName typeName) [] []

/-- Model of `XSDParser._parse_inline_simple_type`: base type and
enumerations of an inline `xs:simpleType`, falling back to the named base
chain when the inline restriction lists none. -/
def XSDParser.parseInlineSimpleType (p : XSDParser) (node : XElem) :
    String × List String :=
  match node.find (XS_NS ++ "restriction") with
  | none => ("string", [])
  | some restriction =>
      let base : String :=
        (match localName (restriction.get "base") with
         | some b => if b = "" then "string" else b
         | none => "string")
      let enums : List String :=
        (restriction.findall (XS_NS ++ "enumeration")).filterMap
          (fun e => e.get "value")
      let collected := if enums.isEmpty then p.collectEnumValues (some base) else enums
      (base, collected)

/-- Model of `XSDParser._resolve_type`: resolve a named simple (or builtin)
type to a concrete base type plus enumeration values. -/
def XSDParser.resolveType (p : XSDParser) (typeName : Option String) :
    String × List String :=
  match typeName with
  | none => ("string", [])
  | some tn =>
      if tn = "" then ("string", [])
      else
        let local_type : String :=
          (match localName (some tn) with
           | some l => if l = "" then "string" else l
           | none => "string")
        let enums := p.collectEnumValues (some local_type)
        let simple_meta := dictGet p.simple_types local_type
        let data_type : String :=
          (match simple_meta with
           | some m =>
               (match m.base with
                | some b => if b = "" then local_type else b
                | none => local_type)
           | none => local_type)
        (data_type, enums)

/-- Model of `XSDParser._is_complex_type`. -/
def XSDParser.isComplexType (p : XSDParser) (typeName : Option String) : Bool :=
  match typeName with
  | none => false
  | some tn =>
      if tn = "" then false
      else
        match localName (some tn) with
        | some l => dictMem p.complex_types l
        | none => false

/-- Python truthiness of an optional string (`if ref_name:` style tests). -/
def optTruthy : Option String → Bool
  | none => false
  | some s => !s.isEmpty

/-- The caller-side cleanup `if ref_name and added_to_chain:
ref_chain.discard(ref_name)` that `_build_node` performs on each of its
return paths. -/
def refDiscard (refName : Option String) (addedToChain : Bool)
    (chain : List String) : List String :=
  if optTruthy refName && addedToChain then chain.erase (refName.getD "")
  else chain

/-- Result of `XSDParser._resolve_reference`: the (possibly substituted)
element, the referenced name, whether the name was pushed onto the
reference chain (and so must be removed by the caller), plus the reference
chain and memo cache the call leaves behind (the Python method mutates both
in place). -/
structure RefResult : Type where
  element : XElem
  refName : Option String
  addedToChain : Bool
  refChain : List String
  cache : Option (List (String × XElem))

/-- Model of `XSDParser._resolve_reference`. Serialisation through
`ET.tostring`/`ET.fromstring` is the identity on the element tree, so the
memo cache stores the resolved element itself (before the occurrence
override, exactly as the source serialises it). -/
def XSDParser.resolveReference (p : XSDParser) (element : XElem)
    (refChain : List String) (cache : Option (List (String × XElem))) :
    RefResult :=
  match element.get "ref" with
  | none => ⟨element, none, false, refChain, cache⟩
  | some ref =>
      if ref = "" then ⟨element, none, false, refChain, cache⟩
      else
        match localName (some ref) with
        | none => ⟨element, none, false, refChain, cache⟩
        | some referencedName =>
            if referencedName = "" then ⟨element, none, false, refChain, cache⟩
            else if referencedName ∈ refChain then
              let placeholder :=
                ((((XElem.mk element.tag [] []).updateAttrs
                    element.attrib).set "name" referencedName).popAttr "ref")
              ⟨placeholder, some referencedName, false, refChain, cache⟩
            else
              match p.findElement referencedName with
              | none => ⟨element, some referencedName, false, refChain, cache⟩
              | some referencedElement =>
                  let refChain1 := referencedName :: refChain
                  let cacheHit : Option XElem :=
                    (match cache with
                     | some cm => dictGet cm referencedName
                     | none => none)
                  match cacheHit with
                  | some cachedElement =>
                      ⟨cachedElement.popAttr "ref", some referencedName, false,
                        refChain1, cache⟩
                  | none =>
                      let resolved0 :=
                        (((XElem.mk referencedElement.tag [] []).updateAttrs
                            referencedElement.attrib).popAttr "ref")
                      let typeKids := referencedElement.children.filter
                        (fun c => c.tag == XS_NS ++ "simpleType" ||
                                  c.tag == XS_NS ++ "complexType")
                      let resolved1 :=
                        XElem.mk resolved0.tag resolved0.attrib
                          (resolved0.children ++ typeKids)
                      let cache1 :=
                        (match cache with
                         | some cm => some (dictSet cm referencedName resolved1)
                         | none => none)
                      let resolved2 :=
                        (match element.get "minOccurs" with
                         | some v => resolved1.set "minOccurs" v
                         | none => resolved1)
                      let resolved3 :=
                        (match element.get "maxOccurs" with
                         | some v => resolved2.set "maxOccurs" v
                         | none => resolved2)
                      ⟨resolved3.popAttr "ref", some referencedName, true,
                        refChain1, cache1⟩

/-- The transient mutable state one `XSDParser.parse` call owns: the active
visited-xpath set, the reference-chain set, and the resolved-reference memo
cache (an instance attribute in the source, threaded explicitly here). -/
structure BuildState : Type where
  visited : List String
  refChain : List String
  cache : Option (List (String × XElem))

/-- The `[depth_limit_reached]` placeholder node the depth guard returns. -/
def depthPlaceholder (maxDepth : Int) (parentXpath : String) : RuleNode :=
  { xpath := parentXpath ++ "/...",
    name := "[depth_limit_reached]",
    kind := "section",
    notes := ["max_depth_" ++ toString maxDepth ++ "_exceeded"],
    description := some ("Maximum recursion depth (" ++ toString maxDepth ++
      ") exceeded"),
    children := [] }

mutual

/-- Model of `XSDParser._build_node`: the core recursive builder. The
element, parent xpath, guard-set state, depth and accumulated extension
depth mirror the Python arguments; the anonymous-element `ValueError`
becomes `Except.error`. -/
def XSDParser.buildNode (p : XSDParser) (element : XElem)
    (parentXpath : String) (st : BuildState) (depth : Int)
    (extensionDepth : Int) : Except String (RuleNode × BuildState) :=
  if hdepth : depth > p.config.max_recursion_depth then
    .ok (depthPlaceholder p.config.max_recursion_depth parentXpath, st)
  else
    let r := p.resolveReference element st.refChain st.cache
    let element1 := r.element
    let refName := r.refName
    let addedToChain := r.addedToChain
    let st1 : BuildState := { st with refChain := r.refChain, cache := r.cache }
    match element1.get "name" with
    | none => .error "Encountered anonymous element in XSD"
    | some name =>
        if name = "" then .error "Encountered anonymous element in XSD"
        else
          let xpath :=
            if parentXpath ≠ "" then parentXpath ++ "/" ++ name
            else "/" ++ name
          if xpath ∈ st1.visited then
            .ok ({ xpath := xpath, name := name, kind := "section",
                   notes := ["recursive_reference"], children := [] }, st1)
          else
            let st2 : BuildState := { st1 with visited := xpath :: st1.visited }
            let min_occurs := parseOccurs (element1.get "minOccurs")
            let raw_max_occurs := (element1.get "maxOccurs").getD "1"
            let repeatable :=
              raw_max_occurs == "unbounded" ||
                (pyIsDigit raw_max_occurs && digitsToNat raw_max_occurs.data > 1)
            let simple_type := element1.find (XS_NS ++ "simpleType")
            let complex_type := element1.find (XS_NS ++ "complexType")
            let element_type := element1.get "type"
            if name == "extension" ||
                (refName == some "extension" && !p.config.resolve_extension_refs) then
              let extension_notes :=
                ["extension_point"] ++
                  (if p.config.track_extension_metadata then
                    ["allows_custom_data"] ++
                      (if extensionDepth > 0 then
                        ["extension_depth_" ++ toString extensionDepth]
                      else [])
                  else [])
              .ok ({ xpath := xpath, name := name, kind := "section",
                     min_occurs := min_occurs,
                     max_occurs := some raw_max_occurs,
                     repeatable := repeatable,
                     notes := extension_notes,
                     description := some "Extension point for custom data",
                     children := [] },
                   { st2 with visited := st2.visited.erase xpath,
                              refChain := refDiscard refName addedToChain st2.refChain })
            else
              let truncChain : Option (List String) :=
                (match element_type with
                 | none => none
                 | some tn =>
                     if tn = "" then none
                     else if p.config.track_extension_metadata then
                       (match localName (some tn) with
                        | some tl => dictGet p.extension_chains tl
                        | none => none)
                     else none)
              let truncated : Option RuleNode :=
                (match truncChain with
                 | some chain =>
                     if extensionDepth + (chain.length : Int) >
                         p.config.max_extension_depth then
                       let truncated_chain :=
                         if chain.length > 2 then chain.take 2 else chain
                       some
                         { xpath := xpath, name := name, kind := "section",
                           min_occurs := min_occurs,
                           max_occurs := some raw_max_occurs,
                           repeatable := repeatable,
                           notes := ["extension_chain_truncated",
                             "inherits_from_" ++ toString chain.length ++ "_types",
                             "base_types: " ++ String.intercalate ", " truncated_chain],
                           description := some ("Complex type with " ++
                             toString chain.length ++
                             "-level inheritance (truncated at depth " ++
                             toString p.config.max_extension_depth ++ ")"),
                           children := [] }
                     else none
                 | none => none)
              match truncated with
              | some nd =>
                  .ok (nd,
                    { st2 with visited := st2.visited.erase xpath,
                               refChain := refDiscard refName addedToChain st2.refChain })
              | none =>
                  match simple_type with
                  | some stNode =>
                      let dt := p.parseInlineSimpleType stNode
                      .ok ({ xpath := xpath, name := name, kind := "field",
                             data_type := some dt.1, enum_values := dt.2,
                             min_occurs := min_occurs,
                             max_occurs := some raw_max_occurs,
                             repeatable := repeatable, children := [] },
                           { st2 with visited := st2.visited.erase xpath,
                                      refChain := refDiscard refName addedToChain st2.refChain })
                  | none =>
                      if complex_type.isSome || p.isComplexType element_type then
                        let new_ext_depth := extensionDepth +
                          (match element_type with
                           | some et =>
                               if et ≠ "" && p.config.track_extension_metadata then
                                 (match localName (some et) with
                                  | some tl =>
                                      (match dictGet p.extension_chains tl with
                                       | some ch => (ch.length : Int)
                                       | none => 0)
                                  | none => 0)
                               else 0
                           | none => 0)
                        let ct_local_name : Option String :=
                          (match element_type with
                           | some et => if et = "" then none else localName (some et)
                           | none => none)
                        let ct_element : Option XElem :=
                          (match complex_type with
                           | some ct => some ct
                           | none =>
                               (match ct_local_name with
                                | some cl =>
                                    if cl = "" then none
                                    else dictGet p.complex_types cl
                                | none => none))
                        match p.parseComplexContent ct_element xpath st2
                            (depth + 1) new_ext_depth with
                        | .error e => .error e
                        | .ok (children, st3) =>
                            .ok ({ xpath := xpath, name := name, kind := "section",
                                   min_occurs := min_occurs,
                                   max_occurs := some raw_max_occurs,
                                   repeatable := repeatable,
                                   children := children },
                                 { st3 with visited := st3.visited.erase xpath,
                                            refChain := refDiscard refName addedToChain st3.refChain })
                      else
                        let dt := p.resolveType element_type
                        .ok ({ xpath := xpath, name := name, kind := "field",
                               data_type := some dt.1, enum_values := dt.2,
                               min_occurs := min_occurs,
                               max_occurs := some raw_max_occurs,
                               repeatable := repeatable, children := [] },
                             { st2 with visited := st2.visited.erase xpath,
                                        refChain := refDiscard refName addedToChain st2.refChain })
termination_by ((p.config.max_recursion_depth + 2 - depth).toNat, 0, 0)
decreasing_by
  apply Prod.Lex.left
  omega

/-- Model of `XSDParser._parse_complex_content`: gather the
`sequence`/`choice`/`all` containers (in that order) and build their
`xs:element` children, tagging the children of the `choice` container. -/
def XSDParser.parseComplexContent (p : XSDParser) (node : Option XElem)
    (parentXpath : String) (st : BuildState) (depth : Int)
    (extensionDepth : Int) : Except String (List RuleNode × BuildState) :=
  match node with
  | none => .ok ([], st)
  | some nd =>
      let sequence := nd.find (XS_NS ++ "sequence")
      let choice := nd.find (XS_NS ++ "choice")
      let all_node := nd.find (XS_NS ++ "all")
      let items : List (XElem × Bool) :=
        (match sequence with
         | some cont => (cont.findall (XS_NS ++ "element")).map (fun e => (e, false))
         | none => []) ++
        (match choice with
         | some cont => (cont.findall (XS_NS ++ "element")).map (fun e => (e, true))
         | none => []) ++
        (match all_node with
         | some cont => (cont.findall (XS_NS ++ "element")).map (fun e => (e, false))
         | none => [])
      p.buildChildren items parentXpath st depth extensionDepth []
termination_by ((p.config.max_recursion_depth + 2 - depth).toNat, 2, 0)
decreasing_by
  apply Prod.Lex.right
  apply Prod.Lex.left
  omega

/-- The child loop of `_parse_complex_content`: build each element child in
order, append a `choice` note inside the choice container, and append the
node unless an equal node is already among the children built so far. -/
def XSDParser.buildChildren (p : XSDParser) (items : List (XElem × Bool))
    (parentXpath : String) (st : BuildState) (depth : Int)
    (extensionDepth : Int) (children : List RuleNode) :
    Except String (List RuleNode × BuildState) :=
  match items with
  | [] => .ok (children, st)
  | (child, isChoice) :: rest =>
      match p.buildNode child parentXpath st depth extensionDepth with
      | .error e => .error e
      | .ok (node0, st1) =>
          let child_node :=
            if isChoice then { node0 with notes := node0.notes ++ ["choice"] }
            else node0
          let children1 :=
            if children.contains child_node then children
            else children ++ [child_node]
          p.buildChildren rest parentXpath st1 depth extensionDepth children1
termination_by ((p.config.max_recursion_depth + 2 - depth).toNat, 1, items.length)
decreasing_by
  · apply Prod.Lex.right
    apply Prod.Lex.left
    omega
  · apply Prod.Lex.right
    apply Prod.Lex.right
    simp [List.length_cons]

end

/-- Model of `XSDParser.__init__` on an already-parsed schema document:
build the simple/complex type indexes, the optional resolved-reference memo
cache, and (when tracking is enabled) the extension-chain index. -/
def mkXSDParser (root : XElem) (config : ParserConfig) : XSDParser :=
  let sts := indexSimpleTypes root
  let cts := indexComplexTypes root
  { config := config, root := root,
    simple_types := sts,
    complex_types := cts,
    reference_cache := if config.cache_resolved_refs then some [] else none,
    extension_chains :=
      if config.track_extension_metadata then indexExtensionChains cts else [] }

/-- Model of `XSDParser.parse`: locate the root element (a missing one is
the single hard error) and build the tree from it with fresh guard sets. -/
def XSDParser.parse (p : XSDParser) (rootName : String) :
    Except String RuleNode :=
  match p.findElement rootName with
  | none => .error ("Element " ++ rootName ++ " not found")
  | some element =>
      match p.buildNode element ""
          { visited := [], refChain := [], cache := p.reference_cache } 0 0 with
      | .error e => .error e
      | .ok (node, _) => .ok node

/-- Model of `xsd_parser.parse_xsd`: construct a parser over the schema
document and parse from the named root. -/
def parseXsd (root : XElem) (rootName : String) (config : ParserConfig) :
    Except String RuleNode :=
  (mkXSDParser root config).parse rootName

/-! ### Specification predicates for the builder invariants -/

/-- The note `_build_node` attaches to a depth-limit placeholder for the
configured bound `maxDepth`. -/
def maxDepthNote (maxDepth : Int) : String :=
  "max_depth_" ++ toString maxDepth ++ "_exceeded"

/-- A node is the depth-limit placeholder for bound `maxDepth`: it carries
the `[depth_limit_reached]` name and the matching `max_depth_…_exceeded`
note. -/
def IsDepthPlaceholder (maxDepth : Int) (n : RuleNode) : Prop :=
  n.name = "[depth_limit_reached]" ∧ maxDepthNote maxDepth ∈ n.notes

/-- Every node lying `ℓ` structural levels below `node` whose absolute
depth `depth + ℓ` exceeds the configured recursion bound is a depth-limit
placeholder. -/
def DeepNodesArePlaceholders (p : XSDParser) (depth : Int)
    (node : RuleNode) : Prop :=
  ∀ (ℓ : Nat) (n : RuleNode), n ∈ nodesAtLevel ℓ node →
    depth + (ℓ : Int) > p.config.max_recursion_depth →
    IsDepthPlaceholder p.config.max_recursion_depth n

/-- Every node of the subtree rooted at `node` has a duplicate-free
children list. -/
def SubtreeChildrenNodup (node : RuleNode) : Prop :=
  ∀ n ∈ node.iterNodes, n.children.Nodup

/-- Combined invariant of one `_build_node` invocation: the only error it
can produce is the anonymous-element one; on success the visited set is
restored exactly, every descendant beyond the depth bound is a depth-limit
placeholder, the depth note sits on the returned node only when the depth
guard fired, and every children list in the returned subtree is
duplicate-free. -/
def BuildNodeSpec (p : XSDParser) (element : XElem) (parentXpath : String)
    (st : BuildState) (depth extensionDepth : Int) : Prop :=
  (∀ e, p.buildNode element parentXpath st depth extensionDepth = .error e →
      e = "Encountered anonymous element in XSD") ∧
  (∀ node st2,
      p.buildNode element parentXpath st depth extensionDepth =
        .ok (node, st2) →
      st2.visited = st.visited ∧
      DeepNodesArePlaceholders p depth node ∧
      (maxDepthNote p.config.max_recursion_depth ∈ node.notes →
        depth > p.config.max_recursion_depth) ∧
      SubtreeChildrenNodup node)

/-- The same combined invariant for `_parse_complex_content`. -/
def ParseContentSpec (p : XSDParser) (node : Option XElem)
    (parentXpath : String) (st : BuildState) (depth extensionDepth : Int) :
    Prop :=
  (∀ e, p.parseComplexContent node parentXpath st depth extensionDepth =
      .error e → e = "Encountered anonymous element in XSD") ∧
  (∀ chs st2,
      p.parseComplexContent node parentXpath st depth extensionDepth =
        .ok (chs, st2) →
      st2.visited = st.visited ∧
      (∀ c ∈ chs, DeepNodesArePlaceholders p depth c) ∧
      chs.Nodup ∧
      (∀ c ∈ chs, SubtreeChildrenNodup c))

/-- The same combined invariant for the child loop, relative to the
accumulated children list. -/
def BuildChildrenSpec (p : XSDParser) (items : List (XElem × Bool))
    (parentXpath : String) (st : BuildState) (depth extensionDepth : Int)
    (acc : List RuleNode) : Prop :=
  (∀ e, p.buildChildren items parentXpath st depth extensionDepth acc =
      .error e → e = "Encountered anonymous element in XSD") ∧
  (∀ chs st2,
      p.buildChildren items parentXpath st depth extensionDepth acc =
        .ok (chs, st2) →
      st2.visited = st.visited ∧
      ((∀ c ∈ acc, DeepNodesArePlaceholders p depth c) →
        ∀ c ∈ chs, DeepNodesArePlaceholders p depth c) ∧
      (acc.Nodup → chs.Nodup) ∧
      ((∀ c ∈ acc, SubtreeChildrenNodup c) →
        ∀ c ∈ chs, SubtreeChildrenNodup c))

/-! ### Concrete schema documents used to exercise the parser -/

/-- A leaf `xs:string` element declaration named `X`. -/
def fieldElemX : XElem :=
  XElem.mk (XS_NS ++ "element") [("name", "X"), ("type", "xs:string")] []

/-- A root element `Root` with an inline complex type holding a sequence
with the single element `X`. -/
def depthRootElem : XElem :=
  XElem.mk (XS_NS ++ "element") [("name", "Root")]
    [XElem.mk (XS_NS ++ "complexType") []
      [XElem.mk (XS_NS ++ "sequence") [] [fieldElemX]]]

/-- A schema whose only top-level element is `depthRootElem`. -/
def depthSchema : XElem :=
  XElem.mk (XS_NS ++ "schema") [] [depthRootElem]

/-- A configuration with a recursion bound of zero, so that every child of
the root already exceeds the bound. -/
def depthConfig : ParserConfig :=
  { max_extension_depth := 3, max_recursion_depth := 0,
    track_extension_metadata := false, resolve_extension_refs := false,
    cache_resolved_refs := false }

/-- A configuration with the modelled extension features switched off and
no resolved-reference memo cache. -/
def plainConfig : ParserConfig :=
  { max_extension_depth := 3, max_recursion_depth := 10,
    track_extension_metadata := false, resolve_extension_refs := false,
    cache_resolved_refs := true }

/-- A configuration like `plainConfig` with the resolved-reference memo
cache enabled (`cache_resolved_refs = true`). -/
def leakConfig : ParserConfig :=
  { max_extension_depth := 3, max_recursion_depth := 10,
    track_extension_metadata := false, resolve_extension_refs := false,
    cache_resolved_refs := true }

/-- An element declaration that references the absent declaration
`Missing` and carries no name of its own. -/
def anonRefElem : XElem :=
  XElem.mk (XS_NS ++ "element") [("ref", "Missing")] []

/-- A root element whose content model holds only the unresolvable
nameless reference. -/
def anonRootElem : XElem :=
  XElem.mk (XS_NS ++ "element") [("name", "Root")]
    [XElem.mk (XS_NS ++ "complexType") []
      [XElem.mk (XS_NS ++ "sequence") [] [anonRefElem]]]

/-- A schema in which `Root` is present but its content holds the
unresolvable nameless reference. -/
def anonSchema : XElem :=
  XElem.mk (XS_NS ++ "schema") [] [anonRootElem]

/-- An element referencing the top-level declaration `B`. -/
def refBElem : XElem :=
  XElem.mk (XS_NS ++ "element") [("ref", "B")] []

/-- The top-level declaration `B` of type `xs:string`. -/
def declBElem : XElem :=
  XElem.mk (XS_NS ++ "element") [("name", "B"), ("type", "xs:string")] []

/-- A root element whose sequence references `B` twice, so that the second
resolution is served from the memo cache. -/
def leakRootElem : XElem :=
  XElem.mk (XS_NS ++ "element") [("name", "Root")]
    [XElem.mk (XS_NS ++ "complexType") []
      [XElem.mk (XS_NS ++ "sequence") [] [refBElem, refBElem]]]

/-- A schema holding `leakRootElem` and the declaration `B`. -/
def leakSchema : XElem :=
  XElem.mk (XS_NS ++ "schema") [] [leakRootElem, declBElem]

/-- A plain element declaration named `A`, used to exercise the
visited-path guard directly. -/
def recurElem : XElem :=
  XElem.mk (XS_NS ++ "element") [("name", "A")] []

/-- An empty schema document. -/
def emptySchema : XElem := XElem.mk (XS_NS ++ "schema") [] []

/-- The tree `parse "Root"` produces over `depthSchema` with
`depthConfig`: the root section with a single depth-limit placeholder
child. -/
def depthTree : RuleNode :=
  { xpath := "/Root", name := "Root", kind := "section",
    min_occurs := some 1, max_occurs := some "1",
    children := [depthPlaceholder 0 "/Root"] }

/-- The field node both references to `B` build. -/
def leakNodeB : RuleNode :=
  { xpath := "/Root/B", name := "B", kind := "field",
    data_type := some "string", enum_values := [],
    min_occurs := some 1, max_occurs := some "1",
    children := [] }

/-- The tree `parse "Root"` produces over `leakSchema`: the duplicate
sibling reference is deduplicated to one child. -/
def leakTree : RuleNode :=
  { xpath := "/Root", name := "Root", kind := "section",
    min_occurs := some 1, max_occurs := some "1",
    children := [leakNodeB] }

/-- The memo cache contents after the first resolution of `B`. -/
def leakCache : List (String × XElem) := [("B", declBElem)]

/-- The inline complex type of `leakRootElem`. -/
def leakCtElem : XElem :=
  XElem.mk (XS_NS ++ "complexType") []
    [XElem.mk (XS_NS ++ "sequence") [] [refBElem, refBElem]]

/-- The inline complex type of `depthRootElem`. -/
def depthCtElem : XElem :=
  XElem.mk (XS_NS ++ "complexType") []
    [XElem.mk (XS_NS ++ "sequence") [] [fieldElemX]]

/-- The inline complex type of `anonRootElem`. -/
def anonCtElem : XElem :=
  XElem.mk (XS_NS ++ "complexType") []
    [XElem.mk (XS_NS ++ "sequence") [] [anonRefElem]]

/-! ## Theorems

First the shared helper lemmas about the dictionary model, then one theorem
(plus witness or counterexample) per verified claim. -/

theorem dictGet_dictSet_self {α : Type} (m : List (String × α)) (k : String)
    (v : α) : dictGet (dictSet m k v) k = some v := by
  induction m with
  | nil => simp [dictSet, dictGet]
  | cons kv rest ih =>
      by_cases hk : kv.1 = k
      · simp [dictSet, dictGet, hk]
      · simp [dictSet, dictGet, hk, ih]

theorem dictGet_dictSet_ne {α : Type} (m : List (String × α)) (k k' : String)
    (v : α) (h : k ≠ k') : dictGet (dictSet m k v) k' = dictGet m k' := by
  induction m with
  | nil => simp [dictSet, dictGet, h]
  | cons kv rest ih =>
      by_cases hk : kv.1 = k
      · subst hk
        simp [dictSet, dictGet, h]
      · by_cases hk' : kv.1 = k'
        · simp [dictSet, dictGet, hk, hk', Ne.symm h]
        · simp [dictSet, dictGet, hk, hk', ih]

theorem dictGet_dictDel_self {α : Type} (m : List (String × α)) (k : String)
    (hnodup : (m.map Prod.fst).Nodup) :
    dictGet (dictDel m k) k = none := by
  induction m with
  | nil => simp [dictDel, dictGet]
  | cons kv rest ih =>
      simp only [List.map_cons, List.nodup_cons] at hnodup
      by_cases hk : kv.1 = k
      · subst hk
        simp only [dictDel, if_pos rfl]
        clear ih
        induction rest with
        | nil => simp [dictGet]
        | cons kv' rest' ih' =>
            simp only [List.mem_map, not_exists, not_and] at hnodup
            have h1 : kv'.1 ≠ kv.1 := by
              intro h
              exact hnodup.1 kv' (by simp) h
            simp only [dictGet, h1, if_false]
            apply ih'
            constructor
            · intro hmem
              rcases List.mem_map.mp hmem with ⟨x, hx, hfx⟩
              exact hnodup.1 x (by simp [hx]) hfx
            · exact (List.nodup_cons.mp hnodup.2).2
      · simp only [dictDel, hk, if_false, dictGet]
        exact ih hnodup.2

theorem mem_keys_dictSet {α : Type} (m : List (String × α)) (k k' : String)
    (v : α) : k' ∈ (dictSet m k v).map Prod.fst ↔
      k' ∈ m.map Prod.fst ∨ k' = k := by
  induction m with
  | nil => simp [dictSet]
  | cons kv rest ih =>
      by_cases hk : kv.1 = k
      · subst hk
        simp [dictSet]
        tauto
      · simp [dictSet, hk, ih]
        tauto

theorem dictSet_nodup_keys {α : Type} (m : List (String × α)) (k : String)
    (v : α) (h : (m.map Prod.fst).Nodup) :
    ((dictSet m k v).map Prod.fst).Nodup := by
  induction m with
  | nil => simp [dictSet]
  | cons kv rest ih =>
      simp only [List.map_cons, List.nodup_cons] at h
      by_cases hk : kv.1 = k
      · subst hk
        have hunf : dictSet (kv :: rest) kv.1 v = (kv.1, v) :: rest := by
          simp [dictSet]
        rw [hunf]
        simp only [List.map_cons, List.nodup_cons]
        exact h
      · have hunf : dictSet (kv :: rest) k v = kv :: dictSet rest k v := by
          simp [dictSet, hk]
        rw [hunf]
        simp only [List.map_cons, List.nodup_cons]
        constructor
        · rw [mem_keys_dictSet]
          push_neg
          exact ⟨h.1, hk⟩
        · exact ih h.2

/-- C7: for the local cache and every key, value and positive ttl:
`set(k, v)` immediately followed by `get(k)` returns `v` (indeed at any
time at most ttl past the set); once more than ttl seconds have passed,
`get(k)` returns absent and evicts the entry; when `set` recorded a source
file, `checkStaleness(k, file)` is true whenever the file's current mtime
is newer than the one recorded at set time, regardless of the ttl; and
`checkStaleness` is true whenever the entry is absent. The key-uniqueness
hypothesis is the Python `dict` invariant on the entry map. -/
theorem schemaCache_set_get_ttl_staleness {α : Type} (c : SchemaCache α)
    (k : String) (v : α) (q : ℚ) (pf : Option String) (fs : FileSys) (t0 : ℚ)
    (hq : 0 < q) (hnodup : (c.cache.map Prod.fst).Nodup) :
    (∀ t : ℚ, t - t0 ≤ q → ((c.set k v (some q) pf fs t0).get k t).1 = some v) ∧
    (∀ t : ℚ, t - t0 > q →
        ((c.set k v (some q) pf fs t0).get k t).1 = none ∧
        dictGet ((c.set k v (some q) pf fs t0).get k t).2.cache k = none) ∧
    (∀ f st0, pf = some f → fs f = some st0 →
        ∀ (fsNew : FileSys) (stNew : FileStat), fsNew f = some stNew →
          stNew.mtime > st0.mtime →
          (c.set k v (some q) pf fs t0).checkFileStaleness k f fsNew = true) ∧
    (∀ (key f : String) (fsAny : FileSys), dictGet c.cache key = none →
        c.checkFileStaleness key f fsAny = true) := by
  have hq0 : q ≠ 0 := ne_of_gt hq
  refine ⟨?_, ?_, ?_, ?_⟩
  · intro t ht
    have hnlt : ¬ (t - t0 > q) := not_lt.mpr ht
    simp [SchemaCache.get, SchemaCache.set, hq0, dictGet_dictSet_self,
      CacheEntry.isExpired, hnlt]
  · intro t ht
    constructor
    · simp [SchemaCache.get, SchemaCache.set, hq0, dictGet_dictSet_self,
        CacheEntry.isExpired, ht]
    · simp [SchemaCache.get, SchemaCache.set, hq0, dictGet_dictSet_self,
        CacheEntry.isExpired, ht]
      exact dictGet_dictDel_self _ _ (dictSet_nodup_keys _ _ _ hnodup)
  · intro f st0 hpf hfs fsNew stNew hfsNew hmt
    subst hpf
    simp [SchemaCache.checkFileStaleness, SchemaCache.set, hq0,
      dictGet_dictSet_self, CacheEntry.isStale, hfsNew, hfs, hmt]
  · intro key f fsAny hnone
    simp [SchemaCache.checkFileStaleness, hnone]

/-- Witness for the C7 theorem at a concrete cache, key, value, ttl and
filesystem. -/
theorem schemaCache_set_get_ttl_witness :
    (0:ℚ) < 10 ∧
    ((SchemaCache.get
        (SchemaCache.set (⟨3600, []⟩ : SchemaCache Nat) "k" 7 (some 10)
          (some "f") (fun p => if p = "f" then some ⟨5, "d0"⟩ else none) 0)
        "k" 0).1 = some 7) ∧
    ((SchemaCache.get
        (SchemaCache.set (⟨3600, []⟩ : SchemaCache Nat) "k" 7 (some 10)
          (some "f") (fun p => if p = "f" then some ⟨5, "d0"⟩ else none) 0)
        "k" 11).1 = none) ∧
    (SchemaCache.checkFileStaleness
        (SchemaCache.set (⟨3600, []⟩ : SchemaCache Nat) "k" 7 (some 10)
          (some "f") (fun p => if p = "f" then some ⟨5, "d0"⟩ else none) 0)
        "k" "f" (fun p => if p = "f" then some ⟨6, "d1"⟩ else none) = true) := by
  have h := schemaCache_set_get_ttl_staleness
    (⟨3600, []⟩ : SchemaCache Nat) "k" 7 10 (some "f")
    (fun p => if p = "f" then some ⟨5, "d0"⟩ else none) 0
    (by norm_num) (by simp)
  refine ⟨by norm_num, h.1 0 (by norm_num), (h.2.1 11 (by norm_num)).1, ?_⟩
  exact h.2.2.1 "f" ⟨5, "d0"⟩ rfl (by simp)
    (fun p => if p = "f" then some ⟨6, "d1"⟩ else none) ⟨6, "d1"⟩ (by simp)
    (by norm_num)

/-- C8: for the distributed cache, a backend `get` or `set` call that fails
at runtime marks the backend unavailable, is itself served by the embedded
local cache, and from then on every `get`/`set` keeps the backend
unavailable and is routed to the embedded local cache, so that
`set(k, v)` followed by `get(k)` round-trips `v` (within the ttl) while
`get_cache_stats()` reports the backend as unavailable. No failure
escapes as an error: `get`/`set` are total functions of the model, the
`try/except` wrapping being built into their definitions. -/
theorem distributedCache_runtime_fallback {α : Type}
    (c : DistributedCache α) (key : String) (v : α) (now : ℚ)
    (havail : c.redis_available = true) (hsome : c.redis.isSome = true) :
    ((c.get key true now).2.redis_available = false ∧
     (c.get key true now).1 = (c.fallback_cache.get key now).1) ∧
    (∀ (ttl : Option ℚ) (pf : Option String) (fs : FileSys),
       (c.set key v ttl pf fs true now).redis_available = false ∧
       (c.set key v ttl pf fs true now).fallback_cache =
         c.fallback_cache.set key (.raw v) ttl pf fs now) ∧
    (∀ (c2 : DistributedCache α), c2.redis_available = false →
       (∀ (k2 : String) (f2 : Bool) (t2 : ℚ),
          (c2.get k2 f2 t2).2.redis_available = false ∧
          (c2.get k2 f2 t2).1 = (c2.fallback_cache.get k2 t2).1) ∧
       (∀ (k2 : String) (v2 : α) (ttl2 : Option ℚ) (pf2 : Option String)
          (fs2 : FileSys) (f2 : Bool) (t2 : ℚ),
          (c2.set k2 v2 ttl2 pf2 fs2 f2 t2).redis_available = false ∧
          (c2.set k2 v2 ttl2 pf2 fs2 f2 t2).fallback_cache =
            c2.fallback_cache.set k2 (.raw v2) ttl2 pf2 fs2 t2) ∧
       c2.getCacheStats.redis_available = false) ∧
    (∀ (q : ℚ), 0 < q →
       ∀ (pf : Option String) (fs : FileSys) (f2 : Bool) (t : ℚ), t - now ≤ q →
         (((c.set key v (some q) pf fs true now).get key f2 t).1 =
           some (.raw v))) := by
  obtain ⟨store, hstore⟩ := Option.isSome_iff_exists.mp hsome
  refine ⟨?_, ?_, ?_, ?_⟩
  · constructor
    · simp [DistributedCache.get, havail, hstore]
    · simp [DistributedCache.get, havail, hstore]
  · intro ttl pf fs
    constructor
    · simp [DistributedCache.set, havail, hstore]
    · simp [DistributedCache.set, havail, hstore]
  · intro c2 hoff
    refine ⟨?_, ?_, ?_⟩
    · intro k2 f2 t2
      constructor
      · simp [DistributedCache.get, hoff]
      · simp [DistributedCache.get, hoff]
    · intro k2 v2 ttl2 pf2 fs2 f2 t2
      constructor
      · simp [DistributedCache.set, hoff]
      · simp [DistributedCache.set, hoff]
    · simp [DistributedCache.getCacheStats, hoff]
  · intro q hqpos pf fs f2 t ht
    have hq0 : q ≠ 0 := ne_of_gt hqpos
    have hnlt : ¬ (t - now > q) := not_lt.mpr ht
    simp [DistributedCache.set, DistributedCache.get, havail, hstore,
      SchemaCache.set, SchemaCache.get, hq0, dictGet_dictSet_self,
      CacheEntry.isExpired, hnlt]

/-- Witness for the C8 theorem at a concrete distributed-cache state. -/
theorem distributedCache_runtime_fallback_witness :
    ((DistributedCache.get
        (⟨3600, "hpxml:", ⟨3600, []⟩, some {}, true⟩ : DistributedCache Nat)
        "k" true 0).2.redis_available = false) ∧
    ((DistributedCache.get
        (DistributedCache.set
          (⟨3600, "hpxml:", ⟨3600, []⟩, some {}, true⟩ : DistributedCache Nat)
          "k" 9 (some 10) none (fun _ => none) true 0)
        "k" true 5).1 = some (.raw 9)) ∧
    ((DistributedCache.set
        (⟨3600, "hpxml:", ⟨3600, []⟩, some {}, true⟩ : DistributedCache Nat)
        "k" 9 (some 10) none (fun _ => none) true 0).getCacheStats.redis_available
      = false) := by
  have h := distributedCache_runtime_fallback
    (⟨3600, "hpxml:", ⟨3600, []⟩, some {}, true⟩ : DistributedCache Nat)
    "k" 9 0 rfl rfl
  refine ⟨h.1.1, ?_, ?_⟩
  · exact h.2.2.2 10 (by norm_num) none (fun _ => none) true 5 (by norm_num)
  · have hoff := (h.2.1 (some 10) none (fun _ => none)).1
    exact ((h.2.2.1 _ hoff).2.2)

theorem tupLt_irrefl : ∀ x : List Nat, tupLt x x = false := by
  intro x
  induction x with
  | nil => rfl
  | cons a as ih => simp [tupLt, ih]

theorem tupLt_trichotomy : ∀ x y : List Nat,
    tupLt x y = true ∨ x = y ∨ tupLt y x = true := by
  intro x
  induction x with
  | nil =>
      intro y
      cases y with
      | nil => simp [tupLt]
      | cons b bs => simp [tupLt]
  | cons a as ih =>
      intro y
      cases y with
      | nil => simp [tupLt]
      | cons b bs =>
          rcases Nat.lt_trichotomy a b with hab | hab | hab
          · left
            simp [tupLt, hab]
          · subst hab
            rcases ih bs with h | h | h
            · left
              simp [tupLt, h]
            · right; left
              simp [h]
            · right; right
              simp [tupLt, h]
          · right; right
            simp [tupLt, hab]

theorem tupLt_trans : ∀ x y z : List Nat,
    tupLt x y = true → tupLt y z = true → tupLt x z = true := by
  intro x
  induction x with
  | nil =>
      intro y z hxy hyz
      cases y with
      | nil => simp [tupLt] at hxy
      | cons b bs =>
          cases z with
          | nil => simp [tupLt] at hyz
          | cons c cs => simp [tupLt]
  | cons a as ih =>
      intro y z hxy hyz
      cases y with
      | nil => simp [tupLt] at hxy
      | cons b bs =>
          cases z with
          | nil => simp [tupLt] at hyz
          | cons c cs =>
              simp only [tupLt] at hxy hyz ⊢
              split_ifs at hxy hyz ⊢ <;>
                first
                  | rfl
                  | omega
                  | (exact ih bs cs hxy hyz)
                  | simp_all

theorem tupLt_asymm : ∀ x y : List Nat,
    tupLt x y = true → tupLt y x = false := by
  intro x y hxy
  by_contra h
  have hyx : tupLt y x = true := by
    cases hcase : tupLt y x with
    | true => rfl
    | false => exact absurd hcase h
  have := tupLt_trans x y x hxy hyx
  rw [tupLt_irrefl] at this
  exact absurd this (by simp)

theorem versionGe_total : ∀ a b : String, versionGe a b ∨ versionGe b a := by
  intro a b
  unfold versionGe
  rcases tupLt_trichotomy (versionKey a) (versionKey b) with h | h | h
  · right
    exact tupLt_asymm _ _ h
  · left
    rw [h, tupLt_irrefl]
  · left
    exact tupLt_asymm _ _ h

theorem versionGe_trans : ∀ a b c : String,
    versionGe a b → versionGe b c → versionGe a c := by
  intro a b c hab hbc
  unfold versionGe at hab hbc ⊢
  by_contra h
  have hac : tupLt (versionKey a) (versionKey c) = true := by
    cases hcase : tupLt (versionKey a) (versionKey c) with
    | true => rfl
    | false => exact absurd hcase h
  rcases tupLt_trichotomy (versionKey b) (versionKey c) with h1 | h1 | h1
  · rw [h1] at hbc
    exact absurd hbc (by simp)
  · rw [← h1] at hac
    rw [hac] at hab
    exact absurd hab (by simp)
  · have h2 := tupLt_trans _ _ _ hac h1
    rw [h2] at hab
    exact absurd hab (by simp)

/-- C9: for every state of the version registry whose catalogued version
strings all parse, `get_available_versions()` returns all catalogued
versions sorted newest-first by parsed-version comparison; and
`get_default_version()` returns a flagged version when one exists,
otherwise the head of `get_available_versions()`, and `None` when nothing
is catalogued. -/
theorem versionManager_sorted_and_default (vm : VersionManager) :
    (∀ ps, (vm.versions.map Prod.fst).mapM versionParse = some ps →
       vm.getAvailableVersions =
         .ok (List.insertionSort versionGe (vm.versions.map Prod.fst)) ∧
       (List.insertionSort versionGe (vm.versions.map Prod.fst)).Perm
         (vm.versions.map Prod.fst) ∧
       (List.insertionSort versionGe (vm.versions.map Prod.fst)).Sorted
         versionGe) ∧
    ((∃ x ∈ vm.versions, x.2.isDefault = true) →
       ∃ x, x ∈ vm.versions ∧ x.2.isDefault = true ∧
         vm.getDefaultVersion = .ok (some x.1)) ∧
    (vm.versions.find? (fun q => q.2.isDefault) = none →
       ∀ l, vm.getAvailableVersions = .ok l →
         vm.getDefaultVersion = .ok l.head?) ∧
    (vm.versions = [] → vm.getDefaultVersion = .ok none) := by
  haveI htot : IsTotal String versionGe := ⟨versionGe_total⟩
  haveI htrans : IsTrans String versionGe := ⟨versionGe_trans⟩
  refine ⟨?_, ?_, ?_, ?_⟩
  · intro ps hps
    refine ⟨?_, List.perm_insertionSort _ _, List.sorted_insertionSort _ _⟩
    simp only [VersionManager.getAvailableVersions]
    rw [hps]
  · intro hex
    have hsome : (vm.versions.find? (fun q => q.2.isDefault)).isSome := by
      rw [List.find?_isSome]
      rcases hex with ⟨x, hx, hdef⟩
      exact ⟨x, hx, by simp [hdef]⟩
    obtain ⟨x, hx⟩ := Option.isSome_iff_exists.mp hsome
    refine ⟨x, List.mem_of_find?_eq_some hx, ?_, ?_⟩
    · have := List.find?_some hx
      simpa using this
    · simp [VersionManager.getDefaultVersion, hx]
  · intro hnone l hl
    simp [VersionManager.getDefaultVersion, hnone, hl]
  · intro hempty
    simp only [VersionManager.getDefaultVersion,
      VersionManager.getAvailableVersions, hempty]
    rfl

/-- Witness for the C9 theorem on a concrete two-version catalogue with no
explicit default flag. -/
theorem versionManager_sorted_and_default_witness :
    (VersionManager.getAvailableVersions
        ⟨[("4.0", ⟨"4.0", "/s/4.0.xsd", "v4.0", none, false, false⟩),
          ("4.1", ⟨"4.1", "/s/4.1.xsd", "v4.1", none, false, false⟩)]⟩ =
      .ok (List.insertionSort versionGe ["4.0", "4.1"])) ∧
    (List.insertionSort versionGe ["4.0", "4.1"]).Sorted versionGe ∧
    (VersionManager.getDefaultVersion
        ⟨[("4.0", ⟨"4.0", "/s/4.0.xsd", "v4.0", none, false, false⟩),
          ("4.1", ⟨"4.1", "/s/4.1.xsd", "v4.1", none, false, false⟩)]⟩ =
      .ok (List.insertionSort versionGe ["4.0", "4.1"]).head?) := by
  have h := versionManager_sorted_and_default
    ⟨[("4.0", ⟨"4.0", "/s/4.0.xsd", "v4.0", none, false, false⟩),
      ("4.1", ⟨"4.1", "/s/4.1.xsd", "v4.1", none, false, false⟩)]⟩
  have h1 := h.1 [[4, 0], [4, 1]] (by decide)
  refine ⟨h1.1, h1.2.2, ?_⟩
  exact h.2.2.1 (by decide) _ h1.1

/-- C3 counterexample: a `sch:report` node with no `role` attribute yields
severity `"warn"`, not `"warning"` as the claim states. The document holds
one pattern with one rule (context `/A`) holding a single report with no
role. -/
theorem schematron_report_severity_counterexample :
    (iterRules ⟨[⟨[⟨some "/A", [], [⟨some "m", some "t", none⟩]⟩]⟩]⟩)
      = [⟨"/A", "m", "t", "warn"⟩] ∧ ("warn" : String) ≠ "warning" := by
  constructor
  · rfl
  · decide

/-- C3 (amended): a parsed assertion whose source omits `role` is appended
with severity `"error"` when it came from an `assert` node and `"warn"`
(the source's literal `"WARN".lower()` default, not `"warning"`) when it
came from a `report` node. -/
theorem schematron_default_severities (d : SchematronDoc) (p : SchPattern)
    (r : SchRule) (ctx : String) (a : SchAssert)
    (hp : p ∈ d.patterns) (hr : r ∈ p.rules) (hctx : r.context = some ctx)
    (hne : ctx ≠ "") (hrole : a.role = none) :
    (a ∈ r.asserts →
       mkAssertRule ctx a ∈ iterRules d ∧
       (mkAssertRule ctx a).severity = "error") ∧
    (a ∈ r.reports →
       mkReportRule ctx a ∈ iterRules d ∧
       (mkReportRule ctx a).severity = "warn") := by
  have hsub : schRuleRules r =
      r.asserts.map (mkAssertRule ctx) ++ r.reports.map (mkReportRule ctx) := by
    simp [schRuleRules, hctx, hne]
  have hmem : ∀ x, x ∈ schRuleRules r → x ∈ iterRules d := by
    intro x hx
    simp only [iterRules, List.mem_flatten, List.mem_map]
    refine ⟨(p.rules.map schRuleRules).flatten, ⟨p, hp, rfl⟩, ?_⟩
    simp only [List.mem_flatten, List.mem_map]
    exact ⟨schRuleRules r, ⟨r, hr, rfl⟩, hx⟩
  constructor
  · intro ha
    constructor
    · apply hmem
      rw [hsub]
      refine List.mem_append.mpr (Or.inl ?_)
      exact List.mem_map.mpr ⟨a, ha, rfl⟩
    · simp [mkAssertRule, hrole]
      rfl
  · intro ha
    constructor
    · apply hmem
      rw [hsub]
      refine List.mem_append.mpr (Or.inr ?_)
      exact List.mem_map.mpr ⟨a, ha, rfl⟩
    · simp [mkReportRule, hrole]
      rfl

/-- Witness for the amended C3 theorem on a concrete one-pattern document
holding one role-less assert and one role-less report. -/
theorem schematron_default_severities_witness :
    (mkAssertRule "/A" ⟨some "m1", some "t1", none⟩ ∈
       iterRules ⟨[⟨[⟨some "/A", [⟨some "m1", some "t1", none⟩],
         [⟨some "m1", some "t1", none⟩]⟩]⟩]⟩ ∧
     (mkAssertRule "/A" ⟨some "m1", some "t1", none⟩).severity = "error") ∧
    (mkReportRule "/A" ⟨some "m1", some "t1", none⟩ ∈
       iterRules ⟨[⟨[⟨some "/A", [⟨some "m1", some "t1", none⟩],
         [⟨some "m1", some "t1", none⟩]⟩]⟩]⟩ ∧
     (mkReportRule "/A" ⟨some "m1", some "t1", none⟩).severity = "warn") := by
  have h := schematron_default_severities
    ⟨[⟨[⟨some "/A", [⟨some "m1", some "t1", none⟩],
      [⟨some "m1", some "t1", none⟩]⟩]⟩]⟩
    ⟨[⟨some "/A", [⟨some "m1", some "t1", none⟩],
      [⟨some "m1", some "t1", none⟩]⟩]⟩
    ⟨some "/A", [⟨some "m1", some "t1", none⟩], [⟨some "m1", some "t1", none⟩]⟩
    "/A" ⟨some "m1", some "t1", none⟩
    (by simp) (by simp) rfl (by decide) rfl
  exact ⟨h.1 (by simp), h.2 (by simp)⟩

/-- Index-threaded map over a node list, describing what `attachAt` does to
a preorder traversal. -/
def mapIdxFrom (f : Nat → RuleNode → RuleNode) :
    List RuleNode → Nat → List RuleNode
  | [], _ => []
  | m :: ms, i => f i m :: mapIdxFrom f ms (i + 1)

theorem mapIdxFrom_append (f : Nat → RuleNode → RuleNode) :
    ∀ (xs ys : List RuleNode) (i : Nat),
      mapIdxFrom f (xs ++ ys) i =
        mapIdxFrom f xs i ++ mapIdxFrom f ys (i + xs.length) := by
  intro xs
  induction xs with
  | nil => simp [mapIdxFrom]
  | cons x rest ih =>
      intro ys i
      simp only [List.cons_append, mapIdxFrom, List.append_eq, List.length_cons]
      rw [ih ys (i + 1)]
      have harith : i + 1 + rest.length = i + (rest.length + 1) := by omega
      rw [harith]

theorem mapIdxFrom_length (f : Nat → RuleNode → RuleNode) :
    ∀ (l : List RuleNode) (i : Nat), (mapIdxFrom f l i).length = l.length := by
  intro l
  induction l with
  | nil => simp [mapIdxFrom]
  | cons x rest ih => intro i; simp [mapIdxFrom, ih]

theorem mapIdxFrom_get (f : Nat → RuleNode → RuleNode) :
    ∀ (l : List RuleNode) (i k : Nat) (hk : k < l.length),
      (mapIdxFrom f l i).get ⟨k, by rw [mapIdxFrom_length]; exact hk⟩ =
        f (i + k) (l.get ⟨k, hk⟩) := by
  intro l
  induction l with
  | nil => intro i k hk; simp at hk
  | cons x rest ih =>
      intro i k hk
      cases k with
      | zero => simp [mapIdxFrom, List.get]
      | succ k2 =>
          have h2 : k2 < rest.length := by simpa using hk
          have hstep : (mapIdxFrom f (x :: rest) i).get
              ⟨k2 + 1, by rw [mapIdxFrom_length]; exact hk⟩ =
              (mapIdxFrom f rest (i + 1)).get
                ⟨k2, by rw [mapIdxFrom_length]; exact h2⟩ := by
            simp [mapIdxFrom, List.get]
          have hg : (x :: rest).get ⟨k2 + 1, hk⟩ = rest.get ⟨k2, h2⟩ := by
            simp [List.get]
          rw [hstep, ih (i + 1) k2 h2, hg]
          have harith : i + 1 + k2 = i + (k2 + 1) := by omega
          rw [harith]

theorem attachAt_iterNodes (extra : Nat → List ValidationRule) :
    ∀ (n : RuleNode) (i : Nat),
      (attachAt extra n i).iterNodes =
        mapIdxFrom (fun k m => attachAt extra m k) n.iterNodes i := by
  intro n i
  induction n, i using attachAt.induct extra with
  | motive_2 cs i =>
      exact RuleNode.iterNodesList (attachAtList extra cs i) =
        mapIdxFrom (fun k m => attachAt extra m k)
          (RuleNode.iterNodesList cs) i
  | case1 xpath name kind dt mi ma rep ev ds va no cs i ih =>
      simp only [attachAt, RuleNode.iterNodes, mapIdxFrom]
      rw [ih]
  | case2 x => simp [attachAtList, RuleNode.iterNodesList, mapIdxFrom]
  | case3 c cs i ih1 ih2 =>
      simp only [attachAtList, RuleNode.iterNodesList, mapIdxFrom_append]
      rw [ih1, ih2]

theorem attachAtList_iterNodes (extra : Nat → List ValidationRule) :
    ∀ (cs : List RuleNode) (i : Nat),
      RuleNode.iterNodesList (attachAtList extra cs i) =
        mapIdxFrom (fun k m => attachAt extra m k)
          (RuleNode.iterNodesList cs) i := by
  intro cs i
  induction cs, i using attachAtList.induct extra with
  | motive_1 n i =>
      exact (attachAt extra n i).iterNodes =
        mapIdxFrom (fun k m => attachAt extra m k) n.iterNodes i
  | case1 xpath name kind dt mi ma rep ev ds va no cs i ih =>
      simp only [attachAt, RuleNode.iterNodes, mapIdxFrom]
      rw [ih]
  | case2 x => simp [attachAtList, RuleNode.iterNodesList, mapIdxFrom]
  | case3 c cs i ih1 ih2 =>
      simp only [attachAtList, RuleNode.iterNodesList, mapIdxFrom_append]
      rw [ih1, ih2]

theorem attachAt_xpath (extra : Nat → List ValidationRule) (n : RuleNode)
    (i : Nat) : (attachAt extra n i).xpath = n.xpath := by
  cases n
  simp [attachAt]

theorem attachAt_validations (extra : Nat → List ValidationRule)
    (n : RuleNode) (i : Nat) :
    (attachAt extra n i).validations = n.validations ++ extra i := by
  cases n
  simp [attachAt]

theorem attachAt_nil (extra : Nat → List ValidationRule)
    (hnil : ∀ j, extra j = []) :
    ∀ (n : RuleNode) (i : Nat), attachAt extra n i = n := by
  intro n i
  induction n, i using attachAt.induct extra with
  | motive_2 cs i => exact attachAtList extra cs i = cs
  | case1 xpath name kind dt mi ma rep ev ds va no cs i ih =>
      simp [attachAt, hnil, ih]
  | case2 x => simp [attachAtList]
  | case3 c cs i ih1 ih2 =>
      simp [attachAtList, ih1, ih2]

theorem dictGet_foldl_not_mem {α : Type} (pairs : List (String × α)) :
    ∀ (m0 : List (String × α)) (k : String), k ∉ pairs.map Prod.fst →
      dictGet (pairs.foldl (fun m p => dictSet m p.1 p.2) m0) k =
        dictGet m0 k := by
  induction pairs with
  | nil => intro m0 k _; rfl
  | cons p rest ih =>
      intro m0 k hk
      simp only [List.map_cons, List.mem_cons, not_or] at hk
      simp only [List.foldl_cons]
      rw [ih _ k hk.2]
      exact dictGet_dictSet_ne m0 p.1 k p.2 (fun h => hk.1 h.symm)

theorem dictGet_foldl_mem {α : Type} (pairs : List (String × α)) :
    ∀ (m0 : List (String × α)), (pairs.map Prod.fst).Nodup →
      ∀ q ∈ pairs, dictGet (pairs.foldl (fun m p => dictSet m p.1 p.2) m0) q.1 =
        some q.2 := by
  induction pairs with
  | nil => intro m0 _ q hq; cases hq
  | cons p rest ih =>
      intro m0 hnd q hq
      simp only [List.map_cons, List.nodup_cons] at hnd
      simp only [List.foldl_cons]
      rcases List.mem_cons.mp hq with hq | hq
      · subst hq
        rw [dictGet_foldl_not_mem rest _ q.1 hnd.1]
        exact dictGet_dictSet_self m0 q.1 q.2
      · exact ih _ hnd.2 q hq

theorem buildContextMap_lookup (root : RuleNode)
    (hnodup : (root.iterNodes.map (fun n => normalizeXpath n.xpath)).Nodup)
    (k : Nat) (hk : k < root.iterNodes.length) :
    dictGet (buildContextMap root)
      (normalizeXpath ((root.iterNodes.get ⟨k, hk⟩).xpath)) = some k := by
  have hfold : buildContextMap root =
      ((root.iterNodes.enum).map
        (fun p => (normalizeXpath p.2.xpath, p.1))).foldl
        (fun m q => dictSet m q.1 q.2) [] := by
    unfold buildContextMap
    rw [List.foldl_map]
  have hkeys : (((root.iterNodes.enum).map
      (fun p => (normalizeXpath p.2.xpath, p.1))).map Prod.fst).Nodup := by
    rw [List.map_map]
    have : (Prod.fst ∘ fun p : Nat × RuleNode =>
        (normalizeXpath p.2.xpath, p.1)) =
        (fun n : RuleNode => normalizeXpath n.xpath) ∘ Prod.snd := rfl
    rw [this, ← List.map_map, List.enum_map_snd]
    exact hnodup
  have hklen : k < (root.iterNodes.enum).length := by
    simpa [List.enum_length] using hk
  have hklen2 : k < ((root.iterNodes.enum).map
      (fun p => (normalizeXpath p.2.xpath, p.1))).length := by
    simpa [List.length_map] using hklen
  have helem : ((root.iterNodes.enum).map
      (fun p => (normalizeXpath p.2.xpath, p.1))).get ⟨k, hklen2⟩ =
      (normalizeXpath ((root.iterNodes.get ⟨k, hk⟩).xpath), k) := by
    rw [List.get_eq_getElem]
    simp only [List.getElem_map, List.getElem_enum]
    rfl
  have hmem := List.get_mem ((root.iterNodes.enum).map
      (fun p => (normalizeXpath p.2.xpath, p.1))) k hklen2
  rw [helem] at hmem
  have := dictGet_foldl_mem _ [] hkeys _ hmem
  rw [hfold]
  exact this

theorem dictGet_buildContextMap_none (root : RuleNode) (key : String)
    (hno : ∀ n ∈ root.iterNodes, key ≠ normalizeXpath n.xpath) :
    dictGet (buildContextMap root) key = none := by
  have hfold : buildContextMap root =
      ((root.iterNodes.enum).map
        (fun p => (normalizeXpath p.2.xpath, p.1))).foldl
        (fun m q => dictSet m q.1 q.2) [] := by
    unfold buildContextMap
    rw [List.foldl_map]
  rw [hfold, dictGet_foldl_not_mem]
  · rfl
  · rw [List.map_map]
    intro hmem
    rcases List.mem_map.mp hmem with ⟨p, hp, hfp⟩
    have hsnd : p.2 ∈ root.iterNodes := by
      have h2 : p.2 ∈ List.map Prod.snd root.iterNodes.enum :=
        List.mem_map_of_mem Prod.snd hp
      rwa [List.enum_map_snd] at h2
    exact hno p.2 hsnd hfp.symm

/-- C4 counterexample: on a tree holding `/A` with child `/A/B`, an
assertion whose context is the namespace-prefixed form `h:A/h:B` (as the
claim words it, with no leading slash) attaches nothing: its normalized
context `A/B` differs from the node's normalized xpath `/A/B`, so the
attachment pass leaves the whole tree unchanged. -/
theorem attachToTree_prefix_counterexample :
    normalizeXpath "h:A/h:B" = "A/B" ∧
    normalizeXpath "/A/B" = "/A/B" ∧
    attachToTree
        ⟨[⟨[⟨some "h:A/h:B", [⟨some "msg", some "tst", none⟩], []⟩]⟩]⟩
        ⟨"/A", "A", "section", none, none, none, false, [], none, [], [],
          [⟨"/A/B", "B", "field", some "string", some 1, some "1", false,
            [], none, [], [], []⟩]⟩ =
      ⟨"/A", "A", "section", none, none, none, false, [], none, [], [],
        [⟨"/A/B", "B", "field", some "string", some 1, some "1", false,
          [], none, [], [], []⟩]⟩ := by
  refine ⟨rfl, rfl, rfl⟩

/-- C4 (amended): after the attachment pass runs on a tree whose nodes
have pairwise distinct normalized xpaths, every extracted assertion whose
normalized context equals the normalized xpath of the node at preorder
position `k` (so contexts `/A/B` and `/h:A/h:B` both, for a node at
`/A/B`) ends up in that node's `validations` in the rebuilt tree; and when
no assertion's normalized context matches any node, the pass returns the
tree unchanged and raises nothing (it is a total function). -/
theorem attachToTree_match_and_drop (d : SchematronDoc) (root : RuleNode)
    (hnodup : (root.iterNodes.map (fun n => normalizeXpath n.xpath)).Nodup) :
    (∀ (k : Nat) (hk : k < root.iterNodes.length) (r : SchematronRule),
       r ∈ iterRules d →
       normalizeXpath r.context =
         normalizeXpath ((root.iterNodes.get ⟨k, hk⟩).xpath) →
       ∃ n', n' ∈ (attachToTree d root).iterNodes ∧
         n'.xpath = (root.iterNodes.get ⟨k, hk⟩).xpath ∧
         mkValidationRule r ∈ n'.validations) ∧
    ((∀ r ∈ iterRules d, ∀ n ∈ root.iterNodes,
        normalizeXpath r.context ≠ normalizeXpath n.xpath) →
      attachToTree d root = root) := by
  constructor
  · intro k hk r hr hctx
    have hlook := buildContextMap_lookup root hnodup k hk
    refine ⟨attachAt (attachedValidations d (buildContextMap root))
      (root.iterNodes.get ⟨k, hk⟩) k, ?_, ?_, ?_⟩
    · have hres : (attachToTree d root).iterNodes =
          mapIdxFrom (fun j m =>
            attachAt (attachedValidations d (buildContextMap root)) m j)
            root.iterNodes 0 := by
        unfold attachToTree
        exact attachAt_iterNodes _ root 0
      rw [hres]
      have hgl := mapIdxFrom_get
        (fun j m =>
          attachAt (attachedValidations d (buildContextMap root)) m j)
        root.iterNodes 0 k hk
      have hmem := List.get_mem
        (mapIdxFrom (fun j m =>
          attachAt (attachedValidations d (buildContextMap root)) m j)
          root.iterNodes 0)
        k (by rw [mapIdxFrom_length]; exact hk)
      rw [hgl] at hmem
      simpa using hmem
    · exact attachAt_xpath _ _ _
    · rw [attachAt_validations]
      refine List.mem_append.mpr (Or.inr ?_)
      unfold attachedValidations
      refine List.mem_map.mpr ⟨r, List.mem_filter.mpr ⟨hr, ?_⟩, rfl⟩
      rw [hctx, hlook]
      simp
  · intro hno
    unfold attachToTree
    apply attachAt_nil
    intro j
    unfold attachedValidations
    have hfil : (iterRules d).filter
        (fun r => dictGet (buildContextMap root)
          (normalizeXpath r.context) == some j) = [] := by
      rw [List.filter_eq_nil_iff]
      intro r hr
      rw [dictGet_buildContextMap_none root _ (hno r hr)]
      simp
    rw [hfil]
    rfl

/-- Witness for the amended C4 theorem: a node at `/A/B` receives the
validation of an assertion with the namespace-prefixed context
`/h:A/h:B`. -/
theorem attachToTree_match_witness :
    ∃ n', n' ∈ (attachToTree
        ⟨[⟨[⟨some "/h:A/h:B", [⟨some "msg", some "tst", none⟩], []⟩]⟩]⟩
        ⟨"/A", "A", "section", none, none, none, false, [], none, [], [],
          [⟨"/A/B", "B", "field", some "string", some 1, some "1", false,
            [], none, [], [], []⟩]⟩).iterNodes ∧
      n'.xpath = "/A/B" ∧
      mkValidationRule ⟨"/h:A/h:B", "msg", "tst", "error"⟩ ∈ n'.validations := by
  have h := attachToTree_match_and_drop
    ⟨[⟨[⟨some "/h:A/h:B", [⟨some "msg", some "tst", none⟩], []⟩]⟩]⟩
    ⟨"/A", "A", "section", none, none, none, false, [], none, [], [],
      [⟨"/A/B", "B", "field", some "string", some 1, some "1", false,
        [], none, [], [], []⟩]⟩
    (by decide)
  have h1 := h.1 1 (by decide) ⟨"/h:A/h:B", "msg", "tst", "error"⟩
    (by decide) (by decide)
  exact h1

/-! ### Helper lemmas about the tree traversals -/

theorem nodesAtLevel_zero (n : RuleNode) : nodesAtLevel 0 n = [n] := by
  rw [nodesAtLevel]

theorem nodesAtLevel_succ (ℓ : Nat) (n : RuleNode) :
    nodesAtLevel (ℓ + 1) n = nodesAtLevelList ℓ n.children := by
  rw [nodesAtLevel]

theorem mem_nodesAtLevelList (ℓ : Nat) (n : RuleNode) :
    ∀ cs : List RuleNode,
      n ∈ nodesAtLevelList ℓ cs ↔ ∃ c ∈ cs, n ∈ nodesAtLevel ℓ c := by
  intro cs
  induction cs with
  | nil => rw [nodesAtLevelList]; simp
  | cons c cs ih => rw [nodesAtLevelList]; simp [ih]

theorem iterNodes_eq (n : RuleNode) :
    n.iterNodes = n :: RuleNode.iterNodesList n.children := by
  cases n
  rw [RuleNode.iterNodes]

theorem mem_iterNodesList (n : RuleNode) :
    ∀ cs : List RuleNode,
      n ∈ RuleNode.iterNodesList cs ↔ ∃ c ∈ cs, n ∈ c.iterNodes := by
  intro cs
  induction cs with
  | nil => rw [RuleNode.iterNodesList]; simp
  | cons c cs ih => rw [RuleNode.iterNodesList]; simp [ih]

/-! ### Helper lemmas about strings -/

theorem string_data_append (s t : String) :
    (s ++ t).data = s.data ++ t.data := by
  cases s; cases t; rfl

theorem maxDepthNote_head (maxDepth : Int) :
    (maxDepthNote maxDepth).data.head? = some 'm' := by
  have h1 : ("max_depth_" ++ toString maxDepth).data
      = 'm' :: ("ax_depth_".data ++ (toString maxDepth).data) := by
    rw [string_data_append]; rfl
  have h2 : (maxDepthNote maxDepth).data
      = 'm' :: (("ax_depth_".data ++ (toString maxDepth).data) ++
          "_exceeded".data) := by
    rw [maxDepthNote, string_data_append, h1]; rfl
  rw [h2]; rfl

theorem maxDepthNote_ne (maxDepth : Int) (t : String)
    (h : t.data.head? ≠ some 'm') : maxDepthNote maxDepth ≠ t := by
  intro he
  exact h (by rw [← he]; exact maxDepthNote_head maxDepth)

theorem append_head_of_cons (s t : String) (c : Char) (l : List Char)
    (h : s.data = c :: l) : (s ++ t).data.head? = some c := by
  rw [string_data_append, h]; rfl

/-! ### Structural equality on rule nodes -/

theorem RuleNode.beq_iff (a b : RuleNode) :
    (RuleNode.beq a b = true) ↔ a = b := by
  induction a, b using RuleNode.beq.induct with
  | motive_2 as bs => exact (RuleNode.beqList as bs = true) ↔ as = bs
  | case1 x1 n1 k1 d1 mi1 ma1 r1 e1 ds1 v1 no1 c1
      x2 n2 k2 d2 mi2 ma2 r2 e2 ds2 v2 no2 c2 ih =>
      rw [RuleNode.beq]
      simp only [Bool.and_eq_true, beq_iff_eq, ih, RuleNode.mk.injEq]
      tauto
  | case2 => simp [RuleNode.beqList]
  | case3 a as b bs ih1 ih2 =>
      rw [RuleNode.beqList]
      simp only [Bool.and_eq_true, ih1, ih2, List.cons.injEq]
  | case4 x y h1 h2 =>
      rcases x with _ | ⟨a, as⟩ <;> rcases y with _ | ⟨b, bs⟩
      · exact absurd rfl (h1 rfl)
      · rw [RuleNode.beqList.eq_def]
        simp
      · rw [RuleNode.beqList.eq_def]
        simp
      · exact (h2 a as b bs rfl rfl).elim

theorem ruleNode_contains_iff (l : List RuleNode) (a : RuleNode) :
    l.contains a = true ↔ a ∈ l := by
  induction l with
  | nil => simp [List.contains]
  | cons b l ih =>
      rw [List.contains_cons, Bool.or_eq_true, ih, List.mem_cons]
      have hb : ((a == b) = true) ↔ a = b := RuleNode.beq_iff a b
      rw [hb]

theorem nodup_append_singleton {α : Type} (l : List α) (a : α)
    (hl : l.Nodup) (ha : a ∉ l) : (l ++ [a]).Nodup := by
  rw [List.nodup_append]
  refine ⟨hl, List.nodup_singleton a, ?_⟩
  intro x hx hxa
  rw [List.mem_singleton] at hxa
  subst hxa
  exact ha hx

theorem maxDepthNote_not_mem (maxDepth : Int) (l : List String)
    (h : ∀ t ∈ l, t.data.head? ≠ some 'm') : maxDepthNote maxDepth ∉ l := by
  intro hm
  exact (h _ hm) (maxDepthNote_head maxDepth)

theorem deep_leaf (p : XSDParser) (depth : Int) (n : RuleNode)
    (hch : n.children = []) (hd : ¬ depth > p.config.max_recursion_depth) :
    DeepNodesArePlaceholders p depth n := by
  intro ℓ m hm hgt
  cases ℓ with
  | zero =>
      exfalso
      push_cast at hgt
      omega
  | succ k =>
      rw [nodesAtLevel_succ, hch, nodesAtLevelList] at hm
      simp at hm

theorem subtree_leaf (n : RuleNode) (h : n.children = []) :
    SubtreeChildrenNodup n := by
  intro m hm
  rw [iterNodes_eq, h, RuleNode.iterNodesList] at hm
  rw [List.mem_singleton] at hm
  subst hm
  rw [h]
  exact List.nodup_nil

theorem deepNodes_notes_mono (p : XSDParser) (depth : Int) (node0 : RuleNode)
    (extra : List String) (h : DeepNodesArePlaceholders p depth node0) :
    DeepNodesArePlaceholders p depth
      { node0 with notes := node0.notes ++ extra } := by
  intro ℓ n hn hgt
  cases ℓ with
  | zero =>
      rw [nodesAtLevel_zero] at hn
      rw [List.mem_singleton] at hn
      subst hn
      have h0 := h 0 node0 (by rw [nodesAtLevel_zero]; exact List.mem_singleton.mpr rfl) hgt
      exact ⟨h0.1, List.mem_append_left extra h0.2⟩
  | succ m =>
      rw [nodesAtLevel_succ] at hn
      exact h (m + 1) n (by rw [nodesAtLevel_succ]; exact hn) hgt

theorem subtreeNodup_notes_mono (node0 : RuleNode) (extra : List String)
    (h : SubtreeChildrenNodup node0) :
    SubtreeChildrenNodup { node0 with notes := node0.notes ++ extra } := by
  intro n hn
  rw [iterNodes_eq] at hn
  rcases List.mem_cons.mp hn with h1 | h1
  · subst h1
    exact h node0 (by rw [iterNodes_eq]; exact List.mem_cons_self _ _)
  · exact h n (by rw [iterNodes_eq]; exact List.mem_cons_of_mem _ h1)

/-- Master invariant of the mutual builder: proved by the functional
induction of `_build_node` / `_parse_complex_content` / the child loop. -/
theorem buildNode_master (p : XSDParser) :
    ∀ element parentXpath st depth extensionDepth,
      BuildNodeSpec p element parentXpath st depth extensionDepth := by
  refine XSDParser.buildNode.induct p
    (fun element parentXpath st depth extensionDepth =>
      BuildNodeSpec p element parentXpath st depth extensionDepth)
    (fun node parentXpath st depth extensionDepth =>
      ParseContentSpec p node parentXpath st depth extensionDepth)
    (fun items parentXpath st depth extensionDepth acc =>
      BuildChildrenSpec p items parentXpath st depth extensionDepth acc)
    ?c1 ?c2 ?c3 ?c4 ?c5 ?c6 ?c7 ?c8 ?c9 ?c10 ?c11 ?c12 ?c13 ?c14 ?c15
  case c1 =>
    intro element parentXpath st depth extensionDepth hdepth
    try dsimp only []
    unfold BuildNodeSpec
    rw [XSDParser.buildNode, dif_pos hdepth]
    constructor
    · intro e he
      exact Except.noConfusion he
    · intro node st2 hok
      injection hok with h
      injection h with h1 h2
      subst h1
      subst h2
      refine ⟨rfl, ?_, fun _ => hdepth, ?_⟩
      · intro ℓ n hn hgt
        cases ℓ with
        | zero =>
            rw [nodesAtLevel_zero] at hn
            rw [List.mem_singleton] at hn
            subst hn
            exact ⟨rfl, by simp [depthPlaceholder, maxDepthNote]⟩
        | succ m =>
            rw [nodesAtLevel_succ] at hn
            have hch : (depthPlaceholder p.config.max_recursion_depth
                parentXpath).children = [] := rfl
            rw [hch, nodesAtLevelList] at hn
            simp at hn
      · exact subtree_leaf _ rfl
  case c2 =>
    intro element parentXpath st depth extensionDepth hdepth
    try dsimp only []
    intro hname
    unfold BuildNodeSpec
    rw [XSDParser.buildNode, dif_neg hdepth]
    try dsimp only []
    rw [hname]
    constructor
    · intro e he
      try dsimp only [] at he
      injection he with h
      exact h.symm
    · intro node st2 hok
      try dsimp only [] at hok
      exact Except.noConfusion hok
  case c3 =>
    intro element parentXpath st depth extensionDepth hdepth
    try dsimp only []
    intro hname
    unfold BuildNodeSpec
    rw [XSDParser.buildNode, dif_neg hdepth]
    try dsimp only []
    rw [hname]
    try dsimp only []
    rw [if_pos rfl]
    constructor
    · intro e he
      injection he with h
      exact h.symm
    · intro node st2 hok
      exact Except.noConfusion hok
  case c4 =>
    intro element parentXpath st depth extensionDepth hdepth
    try dsimp only []
    intro ctx hname hne hvis
    simp only [dite_eq_ite] at hvis
    unfold BuildNodeSpec
    rw [XSDParser.buildNode, dif_neg hdepth]
    try dsimp only []
    rw [hname]
    try dsimp only []
    rw [if_neg hne, if_pos hvis]
    constructor
    · intro e he
      exact Except.noConfusion he
    · intro node st2 hok
      injection hok with h
      injection h with h1 h2
      subst h1
      subst h2
      refine ⟨rfl, deep_leaf p depth _ rfl hdepth, ?_, subtree_leaf _ rfl⟩
      intro hmem
      exfalso
      refine maxDepthNote_not_mem p.config.max_recursion_depth _ ?_ hmem
      intro t ht
      rw [List.mem_singleton] at ht
      subst ht
      decide
  case c5 =>
    intro element parentXpath st depth extensionDepth hdepth
    try dsimp only []
    intro ctx hname hne hnvis hext
    simp only [dite_eq_ite] at hnvis
    unfold BuildNodeSpec
    rw [XSDParser.buildNode, dif_neg hdepth]
    try dsimp only []
    rw [hname]
    try dsimp only []
    rw [if_neg hne, if_neg hnvis]
    try dsimp only []
    rw [if_pos hext]
    constructor
    · intro e he
      exact Except.noConfusion he
    · intro node st2 hok
      injection hok with h
      injection h with h1 h2
      subst h1
      subst h2
      refine ⟨List.erase_cons_head _ _,
        deep_leaf p depth _ rfl hdepth, ?_, subtree_leaf _ rfl⟩
      intro hmem
      exfalso
      refine maxDepthNote_not_mem p.config.max_recursion_depth _ ?_ hmem
      intro t ht
      rcases List.mem_append.mp ht with h | h
      · rw [List.mem_singleton] at h
        subst h
        decide
      · split at h
        · rcases List.mem_cons.mp h with h | h
          · subst h
            decide
          · split at h
            · simp only [List.append_eq, List.nil_append,
                List.mem_singleton] at h
              subst h
              rw [append_head_of_cons "extension_depth_" _ 'e'
                "xtension_depth_".data rfl]
              decide
            · simp at h
        · simp at h
  case c6 =>
    intro element parentXpath st depth extensionDepth hdepth
    try dsimp only []
    intro ctx hname hne hnvis hnext nd htr
    simp only [dite_eq_ite] at hnvis htr
    unfold BuildNodeSpec
    rw [XSDParser.buildNode, dif_neg hdepth]
    try dsimp only []
    rw [hname]
    try dsimp only []
    rw [if_neg hne, if_neg hnvis]
    try dsimp only []
    rw [if_neg hnext]
    try dsimp only []
    rw [htr]
    try dsimp only []
    split at htr
    case _ chain heq =>
      split at htr
      case _ hbig =>
        injection htr with hnd
        subst hnd
        constructor
        · intro e he
          exact Except.noConfusion he
        · intro node st2 hok
          injection hok with h
          injection h with h1 h2
          subst h1
          subst h2
          refine ⟨List.erase_cons_head _ _,
            deep_leaf p depth _ rfl hdepth, ?_, subtree_leaf _ rfl⟩
          intro hmem
          exfalso
          refine maxDepthNote_not_mem p.config.max_recursion_depth _ ?_ hmem
          intro t ht
          rcases List.mem_cons.mp ht with h | h
          · subst h
            decide
          rcases List.mem_cons.mp h with h | h
          · subst h
            rw [append_head_of_cons ("inherits_from_" ++ toString chain.length)
              "_types" 'i' ("nherits_from_".data ++ (toString chain.length).data)
              (by rw [string_data_append]; rfl)]
            decide
          rcases List.mem_cons.mp h with h | h
          · subst h
            rw [append_head_of_cons "base_types: " _ 'b' "ase_types: ".data rfl]
            decide
          · simp at h
      case _ => exact absurd htr (by simp)
    case _ heq => exact absurd htr (by simp)
  case c7 =>
    intro element parentXpath st depth extensionDepth hdepth
    try dsimp only []
    intro ctx hname hne hnvis hnext htrunc stNode hsimp
    simp only [dite_eq_ite] at hnvis htrunc
    unfold BuildNodeSpec
    rw [XSDParser.buildNode, dif_neg hdepth]
    try dsimp only []
    rw [hname]
    try dsimp only []
    rw [if_neg hne, if_neg hnvis]
    try dsimp only []
    rw [if_neg hnext]
    try dsimp only []
    rw [htrunc]
    try dsimp only []
    rw [hsimp]
    try dsimp only []
    constructor
    · intro e he
      exact Except.noConfusion he
    · intro node st2 hok
      injection hok with h
      injection h with h1 h2
      subst h1
      subst h2
      refine ⟨List.erase_cons_head _ _,
        deep_leaf p depth _ rfl hdepth, ?_, subtree_leaf _ rfl⟩
      intro hmem
      simp at hmem
  case c8 =>
    intro element parentXpath st depth extensionDepth hdepth
    try dsimp only []
    intro ctx hname hne hnvis hnext htrunc hsimp hcomplex e hpcc ih
    simp only [dite_eq_ite] at hnvis htrunc hsimp hcomplex hpcc ih
    unfold BuildNodeSpec
    unfold ParseContentSpec at ih
    rw [XSDParser.buildNode, dif_neg hdepth]
    try dsimp only []
    rw [hname]
    try dsimp only []
    rw [if_neg hne, if_neg hnvis]
    try dsimp only []
    rw [if_neg hnext]
    try dsimp only []
    rw [htrunc]
    try dsimp only []
    rw [hsimp]
    try dsimp only []
    rw [if_pos hcomplex]
    try dsimp only []
    rw [hpcc]
    constructor
    · intro e2 he
      injection he with h
      rw [← h]
      exact ih.1 e hpcc
    · intro node st2 hok
      exact Except.noConfusion hok
  case c9 =>
    intro element parentXpath st depth extensionDepth hdepth
    try dsimp only []
    intro ctx hname hne hnvis hnext htrunc hsimp hcomplex children st3 hpcc ih
    simp only [dite_eq_ite] at hnvis htrunc hsimp hcomplex hpcc ih
    unfold BuildNodeSpec
    unfold ParseContentSpec at ih
    rw [XSDParser.buildNode, dif_neg hdepth]
    try dsimp only []
    rw [hname]
    try dsimp only []
    rw [if_neg hne, if_neg hnvis]
    try dsimp only []
    rw [if_neg hnext]
    try dsimp only []
    rw [htrunc]
    try dsimp only []
    rw [hsimp]
    try dsimp only []
    rw [if_pos hcomplex]
    try dsimp only []
    rw [hpcc]
    obtain ⟨hv3, hdeep3, hnodup3, hsub3⟩ := ih.2 children st3 hpcc
    constructor
    · intro e he
      exact Except.noConfusion he
    · intro node st2 hok
      injection hok with h
      injection h with h1 h2
      subst h1
      subst h2
      refine ⟨?_, ?_, ?_, ?_⟩
      · dsimp only []
        rw [hv3]
        exact List.erase_cons_head _ _
      · intro ℓ n hn hgt
        cases ℓ with
        | zero =>
            exfalso
            push_cast at hgt
            omega
        | succ m =>
            rw [nodesAtLevel_succ] at hn
            try dsimp only [] at hn
            rcases (mem_nodesAtLevelList m n children).mp hn with ⟨c, hc, hnc⟩
            refine hdeep3 c hc m n hnc ?_
            push_cast at hgt ⊢
            omega
      · intro hmem
        simp at hmem
      · intro n hn
        rw [iterNodes_eq] at hn
        try dsimp only [] at hn
        rcases List.mem_cons.mp hn with h | h
        · subst h
          exact hnodup3
        · rcases (mem_iterNodesList n children).mp h with ⟨c, hc, hnc⟩
          exact hsub3 c hc n hnc
  case c10 =>
    intro element parentXpath st depth extensionDepth hdepth
    try dsimp only []
    intro ctx hname hne hnvis hnext htrunc hsimp hncomplex
    simp only [dite_eq_ite] at hnvis htrunc hsimp hncomplex
    unfold BuildNodeSpec
    rw [XSDParser.buildNode, dif_neg hdepth]
    try dsimp only []
    rw [hname]
    try dsimp only []
    rw [if_neg hne, if_neg hnvis]
    try dsimp only []
    rw [if_neg hnext]
    try dsimp only []
    rw [htrunc]
    try dsimp only []
    rw [hsimp]
    try dsimp only []
    rw [if_neg hncomplex]
    constructor
    · intro e he
      exact Except.noConfusion he
    · intro node st2 hok
      injection hok with h
      injection h with h1 h2
      subst h1
      subst h2
      refine ⟨List.erase_cons_head _ _,
        deep_leaf p depth _ rfl hdepth, ?_, subtree_leaf _ rfl⟩
      intro hmem
      simp at hmem
  case c11 =>
    intro parentXpath st depth extensionDepth
    try dsimp only []
    unfold ParseContentSpec
    rw [XSDParser.parseComplexContent]
    constructor
    · intro e he
      exact Except.noConfusion he
    · intro chs st2 hok
      injection hok with h
      injection h with h1 h2
      subst h1
      subst h2
      exact ⟨rfl, by simp, List.nodup_nil, by simp⟩
  case c12 =>
    intro parentXpath st depth extensionDepth ext
    try dsimp only []
    intro ih
    unfold ParseContentSpec
    unfold BuildChildrenSpec at ih
    rw [XSDParser.parseComplexContent]
    try dsimp only []
    constructor
    · intro e he
      exact ih.1 e he
    · intro chs st2 hok
      obtain ⟨hv, hd, hn, hs⟩ := ih.2 chs st2 hok
      exact ⟨hv, hd (by simp), hn List.nodup_nil, hs (by simp)⟩
  case c13 =>
    intro parentXpath st depth extensionDepth children
    try dsimp only []
    unfold BuildChildrenSpec
    rw [XSDParser.buildChildren]
    constructor
    · intro e he
      exact Except.noConfusion he
    · intro chs st2 hok
      injection hok with h
      injection h with h1 h2
      subst h1
      subst h2
      exact ⟨rfl, fun h => h, fun h => h, fun h => h⟩
  case c14 =>
    intro parentXpath st depth extensionDepth children child isChoice rest e
      hbn ihc
    try dsimp only [] at ihc ⊢
    unfold BuildChildrenSpec
    unfold BuildNodeSpec at ihc
    rw [XSDParser.buildChildren]
    rw [hbn]
    try dsimp only []
    constructor
    · intro e2 he
      injection he with h
      rw [← h]
      exact ihc.1 e hbn
    · intro chs st2 hok
      exact Except.noConfusion hok
  case c15 =>
    intro parentXpath st depth extensionDepth children child isChoice rest
      node0 st1 hbn
    try dsimp only []
    intro ihc ihrest
    simp only [dite_eq_ite] at ihrest
    unfold BuildChildrenSpec at ihrest ⊢
    unfold BuildNodeSpec at ihc
    obtain ⟨hv1, hdeep1, hnote1, hsub1⟩ := ihc.2 node0 st1 hbn
    have hdeepc : DeepNodesArePlaceholders p depth
        (if isChoice then { node0 with notes := node0.notes ++ ["choice"] }
         else node0) := by
      split
      · exact deepNodes_notes_mono p depth node0 ["choice"] hdeep1
      · exact hdeep1
    have hsubc : SubtreeChildrenNodup
        (if isChoice then { node0 with notes := node0.notes ++ ["choice"] }
         else node0) := by
      split
      · exact subtreeNodup_notes_mono node0 ["choice"] hsub1
      · exact hsub1
    rw [XSDParser.buildChildren]
    rw [hbn]
    try dsimp only []
    constructor
    · intro e he
      exact ihrest.1 e he
    · intro chs st2 hok
      obtain ⟨hv2, hd2, hn2, hs2⟩ := ihrest.2 chs st2 hok
      refine ⟨hv2.trans hv1, ?_, ?_, ?_⟩
      · intro hacc
        apply hd2
        intro c hc
        by_cases hct : children.contains
            (if isChoice then { node0 with notes := node0.notes ++ ["choice"] }
             else node0) = true
        · rw [if_pos hct] at hc
          exact hacc c hc
        · rw [if_neg hct] at hc
          rcases List.mem_append.mp hc with h | h
          · exact hacc c h
          · rw [List.mem_singleton] at h
            subst h
            exact hdeepc
      · intro hnodup
        apply hn2
        by_cases hct : children.contains
            (if isChoice then { node0 with notes := node0.notes ++ ["choice"] }
             else node0) = true
        · rw [if_pos hct]
          exact hnodup
        · rw [if_neg hct]
          refine nodup_append_singleton _ _ hnodup ?_
          intro hmem
          exact hct ((ruleNode_contains_iff children _).mpr hmem)
      · intro hacc
        apply hs2
        intro c hc
        by_cases hct : children.contains
            (if isChoice then { node0 with notes := node0.notes ++ ["choice"] }
             else node0) = true
        · rw [if_pos hct] at hc
          exact hacc c hc
        · rw [if_neg hct] at hc
          rcases List.mem_append.mp hc with h | h
          · exact hacc c h
          · rw [List.mem_singleton] at h
            subst h
            exact hsubc

/-- Direct reduction of `_build_node` on the already-visited branch. -/
theorem buildNode_guard_eq (p : XSDParser) (element : XElem)
    (parentXpath : String) (st : BuildState) (depth extensionDepth : Int)
    (name : String)
    (hd : ¬ depth > p.config.max_recursion_depth)
    (hname : (p.resolveReference element st.refChain st.cache).element.get
      "name" = some name)
    (hne : ¬ name = "")
    (hvis : (if parentXpath ≠ "" then parentXpath ++ "/" ++ name
      else "/" ++ name) ∈ st.visited) :
    p.buildNode element parentXpath st depth extensionDepth =
      .ok ({ xpath := if parentXpath ≠ "" then parentXpath ++ "/" ++ name
               else "/" ++ name,
             name := name, kind := "section",
             notes := ["recursive_reference"], children := [] },
           { st with
              refChain :=
                (p.resolveReference element st.refChain st.cache).refChain,
              cache :=
                (p.resolveReference element st.refChain st.cache).cache }) := by
  rw [XSDParser.buildNode, dif_neg hd]
  dsimp only []
  rw [hname]
  dsimp only []
  rw [if_neg hne, if_pos hvis]

/-- C6: whenever `_build_node` returns a node, the visited-path set it
leaves behind holds exactly the members it held on entry; and when the
computed xpath is already in the active visited set (and the depth guard
has not fired and the element has a usable name), the builder returns the
`recursive_reference` section node immediately, leaving the visited set
untouched. -/
theorem buildNode_visited_frame_and_guard (p : XSDParser) (element : XElem)
    (parentXpath : String) (st : BuildState) (depth extensionDepth : Int) :
    (∀ node st2,
        p.buildNode element parentXpath st depth extensionDepth =
          .ok (node, st2) →
        st2.visited = st.visited) ∧
    (∀ name,
        ¬ depth > p.config.max_recursion_depth →
        (p.resolveReference element st.refChain st.cache).element.get
          "name" = some name →
        ¬ name = "" →
        (if parentXpath ≠ "" then parentXpath ++ "/" ++ name
          else "/" ++ name) ∈ st.visited →
        p.buildNode element parentXpath st depth extensionDepth =
          .ok ({ xpath := if parentXpath ≠ "" then parentXpath ++ "/" ++ name
                   else "/" ++ name,
                 name := name, kind := "section",
                 notes := ["recursive_reference"], children := [] },
               { st with
                  refChain :=
                    (p.resolveReference element st.refChain st.cache).refChain,
                  cache :=
                    (p.resolveReference element st.refChain
                      st.cache).cache })) := by
  constructor
  · intro node st2 hok
    exact ((buildNode_master p element parentXpath st depth
      extensionDepth).2 node st2 hok).1
  · intro name hd hname hne hvis
    exact buildNode_guard_eq p element parentXpath st depth extensionDepth
      name hd hname hne hvis

/-- Witness for the C6 theorem: a concrete builder invocation on an element
named `A` whose xpath `/A` is already in the visited set returns the
`recursive_reference` node and leaves the visited set as it was. -/
theorem buildNode_visited_frame_and_guard_witness :
    (mkXSDParser emptySchema plainConfig).buildNode recurElem ""
        ⟨["/A"], [], none⟩ 0 0 =
      .ok ({ xpath := "/A", name := "A", kind := "section",
             notes := ["recursive_reference"], children := [] },
           ⟨["/A"], [], none⟩) ∧
    (BuildState.mk ["/A"] [] none).visited =
      (BuildState.mk ["/A"] [] none).visited := by
  have h := buildNode_visited_frame_and_guard
    (mkXSDParser emptySchema plainConfig) recurElem "" ⟨["/A"], [], none⟩ 0 0
  have hg := h.2 "A" (by decide) rfl (by decide) (by decide)
  refine ⟨?_, h.1 _ _ hg ▸ rfl⟩
  exact hg

/-- C1: in any tree `parse` returns, every node more than
`max_recursion_depth` levels below the root is the `[depth_limit_reached]`
placeholder carrying the `max_depth_…_exceeded` note; and the builder
returns that placeholder (without recursing) exactly when its depth
argument exceeds the bound. -/
theorem parse_depth_bound (config : ParserConfig) (schema : XElem)
    (rootName : String) (tree : RuleNode)
    (hparse : (mkXSDParser schema config).parse rootName = .ok tree) :
    (∀ (ℓ : Nat) (n : RuleNode), n ∈ nodesAtLevel ℓ tree →
        (ℓ : Int) > config.max_recursion_depth →
        n.name = "[depth_limit_reached]" ∧
        maxDepthNote config.max_recursion_depth ∈ n.notes) ∧
    (∀ (p : XSDParser) (element : XElem) (parentXpath : String)
        (st : BuildState) (depth extensionDepth : Int),
        (depth > p.config.max_recursion_depth →
          p.buildNode element parentXpath st depth extensionDepth =
            .ok (depthPlaceholder p.config.max_recursion_depth parentXpath,
              st)) ∧
        (∀ node st2,
          p.buildNode element parentXpath st depth extensionDepth =
            .ok (node, st2) →
          maxDepthNote p.config.max_recursion_depth ∈ node.notes →
          depth > p.config.max_recursion_depth)) := by
  constructor
  · intro ℓ n hn hgt
    rw [XSDParser.parse] at hparse
    rcases hfe : (mkXSDParser schema config).findElement rootName with
      _ | element
    · rw [hfe] at hparse
      exact Except.noConfusion hparse
    · rw [hfe] at hparse
      try dsimp only [] at hparse
      rcases hbn : (mkXSDParser schema config).buildNode element ""
          ⟨[], [], (mkXSDParser schema config).reference_cache⟩ 0 0 with
        e | pr
      · rw [hbn] at hparse
        exact Except.noConfusion hparse
      · rcases pr with ⟨node, st2⟩
        rw [hbn] at hparse
        try dsimp only [] at hparse
        injection hparse with h
        subst h
        have hm := ((buildNode_master (mkXSDParser schema config) element ""
          ⟨[], [], (mkXSDParser schema config).reference_cache⟩ 0 0).2
            node st2 hbn).2.1
        refine hm ℓ n hn ?_
        have hcfg : (mkXSDParser schema config).config = config := rfl
        rw [hcfg]
        omega
  · intro p element parentXpath st depth extensionDepth
    constructor
    · intro hd
      rw [XSDParser.buildNode, dif_pos hd]
    · intro node st2 hok hmem
      exact ((buildNode_master p element parentXpath st depth
        extensionDepth).2 node st2 hok).2.2.1 hmem

/-- Concrete run: with the recursion bound set to zero, the child of the
root is built at depth 1 and is replaced by the depth-limit placeholder. -/
theorem depth_parse_eval :
    (mkXSDParser depthSchema depthConfig).parse "Root" = .ok depthTree := by
  have h1 : (mkXSDParser depthSchema depthConfig).buildNode fieldElemX
      "/Root" ⟨["/Root"], [], none⟩ 1 0 =
      .ok (depthPlaceholder 0 "/Root", ⟨["/Root"], [], none⟩) := by
    rw [XSDParser.buildNode, dif_pos (by decide)]
    rfl
  have h2 : (mkXSDParser depthSchema depthConfig).buildChildren
      [(fieldElemX, false)] "/Root" ⟨["/Root"], [], none⟩ 1 0 [] =
      .ok ([depthPlaceholder 0 "/Root"], ⟨["/Root"], [], none⟩) := by
    rw [XSDParser.buildChildren, h1]
    show (mkXSDParser depthSchema depthConfig).buildChildren []
      "/Root" ⟨["/Root"], [], none⟩ 1 0 [depthPlaceholder 0 "/Root"] = _
    rw [XSDParser.buildChildren]
  have h3 : (mkXSDParser depthSchema depthConfig).parseComplexContent
      (some depthCtElem) "/Root" ⟨["/Root"], [], none⟩ 1 0 =
      .ok ([depthPlaceholder 0 "/Root"], ⟨["/Root"], [], none⟩) := by
    rw [XSDParser.parseComplexContent]
    show (mkXSDParser depthSchema depthConfig).buildChildren
      [(fieldElemX, false)] "/Root" ⟨["/Root"], [], none⟩ 1 0 [] = _
    exact h2
  have h4 : (mkXSDParser depthSchema depthConfig).buildNode depthRootElem
      "" ⟨[], [], none⟩ 0 0 = .ok (depthTree, ⟨[], [], none⟩) := by
    have hstep : (mkXSDParser depthSchema depthConfig).buildNode
        depthRootElem "" ⟨[], [], none⟩ 0 0 =
        (match (mkXSDParser depthSchema depthConfig).parseComplexContent
            (some depthCtElem) "/Root" ⟨["/Root"], [], none⟩ 1 0 with
         | .error e => .error e
         | .ok (children, st3) =>
             .ok ({ xpath := "/Root", name := "Root", kind := "section",
                    data_type := none, min_occurs := some 1,
                    max_occurs := some "1", repeatable := false,
                    enum_values := [], description := none,
                    validations := [], notes := [], children := children },
                  { visited := st3.visited.erase "/Root",
                    refChain := st3.refChain, cache := st3.cache })) := by
      rw [XSDParser.buildNode, dif_neg (by decide)]
      rfl
    rw [hstep, h3]
    rfl
  have hp1 : (mkXSDParser depthSchema depthConfig).parse "Root" =
      (match (mkXSDParser depthSchema depthConfig).buildNode depthRootElem
          "" ⟨[], [], none⟩ 0 0 with
       | .error e => .error e
       | .ok (node, _) => .ok node) := by
    rw [XSDParser.parse]
    rfl
  rw [hp1, h4]

/-- Witness for the C1 theorem: the concrete run over `depthSchema` with
bound zero, whose level-1 node is the placeholder. -/
theorem parse_depth_bound_witness :
    (mkXSDParser depthSchema depthConfig).parse "Root" = .ok depthTree ∧
    depthPlaceholder 0 "/Root" ∈ nodesAtLevel 1 depthTree ∧
    ((1 : Nat) : Int) > depthConfig.max_recursion_depth ∧
    (depthPlaceholder 0 "/Root").name = "[depth_limit_reached]" ∧
    maxDepthNote depthConfig.max_recursion_depth ∈
      (depthPlaceholder 0 "/Root").notes := by
  have hmem : depthPlaceholder 0 "/Root" ∈ nodesAtLevel 1 depthTree := by
    have hlv : nodesAtLevel 1 depthTree = [depthPlaceholder 0 "/Root"] := by
      rw [nodesAtLevel_succ]
      show nodesAtLevelList 0 [depthPlaceholder 0 "/Root"] = _
      rw [nodesAtLevelList, nodesAtLevel_zero, nodesAtLevelList]
      rfl
    rw [hlv]
    exact List.mem_singleton.mpr rfl
  have h := (parse_depth_bound depthConfig depthSchema "Root" depthTree
    depth_parse_eval).1 1 (depthPlaceholder 0 "/Root") hmem (by decide)
  exact ⟨depth_parse_eval, hmem, by decide, h⟩

/-- Concrete run: over `anonSchema` the root is present, yet `parse`
errors with the anonymous-element message, because the nameless reference
to the absent declaration `Missing` stays nameless after resolution. -/
theorem anon_parse_eval :
    (mkXSDParser anonSchema plainConfig).parse "Root" =
      .error "Encountered anonymous element in XSD" := by
  have h1 : (mkXSDParser anonSchema plainConfig).buildNode anonRefElem
      "/Root" ⟨["/Root"], [], some []⟩ 1 0 =
      .error "Encountered anonymous element in XSD" := by
    rw [XSDParser.buildNode, dif_neg (by decide)]
    rfl
  have h2 : (mkXSDParser anonSchema plainConfig).buildChildren
      [(anonRefElem, false)] "/Root" ⟨["/Root"], [], some []⟩ 1 0 [] =
      .error "Encountered anonymous element in XSD" := by
    rw [XSDParser.buildChildren, h1]
  have h3 : (mkXSDParser anonSchema plainConfig).parseComplexContent
      (some anonCtElem) "/Root" ⟨["/Root"], [], some []⟩ 1 0 =
      .error "Encountered anonymous element in XSD" := by
    rw [XSDParser.parseComplexContent]
    show (mkXSDParser anonSchema plainConfig).buildChildren
      [(anonRefElem, false)] "/Root" ⟨["/Root"], [], some []⟩ 1 0 [] = _
    exact h2
  have h4 : (mkXSDParser anonSchema plainConfig).buildNode anonRootElem
      "" ⟨[], [], some []⟩ 0 0 =
      .error "Encountered anonymous element in XSD" := by
    have hstep : (mkXSDParser anonSchema plainConfig).buildNode
        anonRootElem "" ⟨[], [], some []⟩ 0 0 =
        (match (mkXSDParser anonSchema plainConfig).parseComplexContent
            (some anonCtElem) "/Root" ⟨["/Root"], [], some []⟩ 1 0 with
         | .error e => .error e
         | .ok (children, st3) =>
             .ok ({ xpath := "/Root", name := "Root", kind := "section",
                    data_type := none, min_occurs := some 1,
                    max_occurs := some "1", repeatable := false,
                    enum_values := [], description := none,
                    validations := [], notes := [], children := children },
                  { visited := st3.visited.erase "/Root",
                    refChain := st3.refChain, cache := st3.cache })) := by
      rw [XSDParser.buildNode, dif_neg (by decide)]
      rfl
    rw [hstep, h3]
  have hp1 : (mkXSDParser anonSchema plainConfig).parse "Root" =
      (match (mkXSDParser anonSchema plainConfig).buildNode anonRootElem
          "" ⟨[], [], some []⟩ 0 0 with
       | .error e => .error e
       | .ok (node, _) => .ok node) := by
    rw [XSDParser.parse]
    rfl
  rw [hp1, h4]

/-- C2 counterexample: a schema whose root element is present (it is
found by the element lookup) but on which `parse` still raises — the
unresolvable nameless reference degrades to a `ValueError`, not to a
placeholder node. -/
theorem parse_anonymous_error_counterexample :
    (mkXSDParser anonSchema plainConfig).findElement "Root" =
      some anonRootElem ∧
    (mkXSDParser anonSchema plainConfig).parse "Root" =
      .error "Encountered anonymous element in XSD" := by
  exact ⟨rfl, anon_parse_eval⟩

/-- C2 (amended): `parse` errors with the root-not-found message
exactly when the root element is absent, and every error it can produce is
either that message or the anonymous-element message (all other anomalies
degrade to annotated placeholder nodes). -/
theorem parse_error_characterization (config : ParserConfig) (schema : XElem)
    (rootName : String) :
    ((mkXSDParser schema config).parse rootName =
        .error ("Element " ++ rootName ++ " not found") ↔
      (mkXSDParser schema config).findElement rootName = none) ∧
    (∀ e, (mkXSDParser schema config).parse rootName = .error e →
      e = ("Element " ++ rootName ++ " not found") ∨
      e = "Encountered anonymous element in XSD") := by
  have hanon_ne : ("Element " ++ rootName ++ " not found") ≠
      "Encountered anonymous element in XSD" := by
    intro h
    have hd : ("Element " ++ rootName ++ " not found").data =
        'E' :: 'l' :: (("ement ".data ++ rootName.data) ++
          " not found".data) := by
      rw [string_data_append, string_data_append]
      rfl
    rw [h] at hd
    rw [show "Encountered anonymous element in XSD".data =
      'E' :: 'n' :: "countered anonymous element in XSD".data from rfl] at hd
    injection hd with hd1 hd2
    injection hd2 with hd3 hd4
    exact absurd hd3 (by decide)
  constructor
  · constructor
    · intro hp
      rcases hfe : (mkXSDParser schema config).findElement rootName with
        _ | element
      · rfl
      · exfalso
        rw [XSDParser.parse, hfe] at hp
        try dsimp only [] at hp
        rcases hbn : (mkXSDParser schema config).buildNode element ""
            ⟨[], [], (mkXSDParser schema config).reference_cache⟩ 0 0 with
          e | pr
        · rw [hbn] at hp
          try dsimp only [] at hp
          injection hp with he
          have hae := (buildNode_master (mkXSDParser schema config) element
            "" ⟨[], [], (mkXSDParser schema config).reference_cache⟩ 0 0).1
              e hbn
          rw [hae] at he
          exact hanon_ne he.symm
        · rcases pr with ⟨node, st2⟩
          rw [hbn] at hp
          try dsimp only [] at hp
          exact Except.noConfusion hp
    · intro hfe
      rw [XSDParser.parse, hfe]
  · intro e hp
    rcases hfe : (mkXSDParser schema config).findElement rootName with
      _ | element
    · rw [XSDParser.parse, hfe] at hp
      try dsimp only [] at hp
      injection hp with he
      exact Or.inl he.symm
    · rw [XSDParser.parse, hfe] at hp
      try dsimp only [] at hp
      rcases hbn : (mkXSDParser schema config).buildNode element ""
          ⟨[], [], (mkXSDParser schema config).reference_cache⟩ 0 0 with
        e2 | pr
      · rw [hbn] at hp
        try dsimp only [] at hp
        injection hp with he
        refine Or.inr ?_
        rw [← he]
        exact (buildNode_master (mkXSDParser schema config) element ""
          ⟨[], [], (mkXSDParser schema config).reference_cache⟩ 0 0).1 e2 hbn
      · rcases pr with ⟨node, st2⟩
        rw [hbn] at hp
        try dsimp only [] at hp
        exact Except.noConfusion hp

/-- Witness for the amended C2 theorem: over the empty schema, the missing
root is exactly the root-not-found error. -/
theorem parse_error_characterization_witness :
    (mkXSDParser emptySchema plainConfig).parse "Missing" =
      .error ("Element " ++ "Missing" ++ " not found") := by
  exact (parse_error_characterization plainConfig emptySchema "Missing").1.mpr
    rfl

/-- The builtin `xs:string` resolves to base `string` with no
enumerations over a parser with no indexed simple types. -/
theorem leak_resolveType_eval :
    (mkXSDParser leakSchema leakConfig).resolveType (some "xs:string") =
      ("string", []) := by
  have hce : collectEnumGo ([] : List (String × SimpleType)) (some "string")
      [] [] = [] := by
    rw [collectEnumGo]
    rfl
  rw [XSDParser.resolveType]
  show ("string", collectEnumGo ([] : List (String × SimpleType))
    (some "string") [] []) = ("string", [])
  rw [hce]

/-- Concrete run of the builder over `leakSchema`: the entry reference
chain is empty, the returned reference chain still holds `B` — the name
pushed by the memo-cache-served second resolution is never removed. -/
theorem leak_buildNode_eval :
    (mkXSDParser leakSchema leakConfig).buildNode leakRootElem ""
        ⟨[], [], some []⟩ 0 0 =
      .ok (leakTree, ⟨[], ["B"], some leakCache⟩) := by
  have hrt := leak_resolveType_eval
  have hb1 : (mkXSDParser leakSchema leakConfig).buildNode refBElem
      "/Root" ⟨["/Root"], [], some []⟩ 1 0 =
      .ok ({ xpath := "/Root/B", name := "B", kind := "field",
             data_type := some ((mkXSDParser leakSchema
               leakConfig).resolveType (some "xs:string")).1,
             enum_values := ((mkXSDParser leakSchema
               leakConfig).resolveType (some "xs:string")).2,
             min_occurs := some 1, max_occurs := some "1",
             repeatable := false, description := none, validations := [],
             notes := [], children := [] },
           ⟨["/Root"], [], some leakCache⟩) := by
    rw [XSDParser.buildNode, dif_neg (by decide)]
    rfl
  have hb1c : (mkXSDParser leakSchema leakConfig).buildNode refBElem
      "/Root" ⟨["/Root"], [], some []⟩ 1 0 =
      .ok (leakNodeB, ⟨["/Root"], [], some leakCache⟩) := by
    rw [hb1, hrt]
    rfl
  have hb2 : (mkXSDParser leakSchema leakConfig).buildNode refBElem
      "/Root" ⟨["/Root"], [], some leakCache⟩ 1 0 =
      .ok ({ xpath := "/Root/B", name := "B", kind := "field",
             data_type := some ((mkXSDParser leakSchema
               leakConfig).resolveType (some "xs:string")).1,
             enum_values := ((mkXSDParser leakSchema
               leakConfig).resolveType (some "xs:string")).2,
             min_occurs := some 1, max_occurs := some "1",
             repeatable := false, description := none, validations := [],
             notes := [], children := [] },
           ⟨["/Root"], ["B"], some leakCache⟩) := by
    rw [XSDParser.buildNode, dif_neg (by decide)]
    rfl
  have hb2c : (mkXSDParser leakSchema leakConfig).buildNode refBElem
      "/Root" ⟨["/Root"], [], some leakCache⟩ 1 0 =
      .ok (leakNodeB, ⟨["/Root"], ["B"], some leakCache⟩) := by
    rw [hb2, hrt]
    rfl
  have hbc : (mkXSDParser leakSchema leakConfig).buildChildren
      [(refBElem, false), (refBElem, false)] "/Root"
      ⟨["/Root"], [], some []⟩ 1 0 [] =
      .ok ([leakNodeB], ⟨["/Root"], ["B"], some leakCache⟩) := by
    rw [XSDParser.buildChildren, hb1c]
    show (mkXSDParser leakSchema leakConfig).buildChildren
      [(refBElem, false)] "/Root" ⟨["/Root"], [], some leakCache⟩ 1 0
      [leakNodeB] = _
    rw [XSDParser.buildChildren, hb2c]
    show (mkXSDParser leakSchema leakConfig).buildChildren []
      "/Root" ⟨["/Root"], ["B"], some leakCache⟩ 1 0 [leakNodeB] = _
    rw [XSDParser.buildChildren]
  have hpcc : (mkXSDParser leakSchema leakConfig).parseComplexContent
      (some leakCtElem) "/Root" ⟨["/Root"], [], some []⟩ 1 0 =
      .ok ([leakNodeB], ⟨["/Root"], ["B"], some leakCache⟩) := by
    rw [XSDParser.parseComplexContent]
    show (mkXSDParser leakSchema leakConfig).buildChildren
      [(refBElem, false), (refBElem, false)] "/Root"
      ⟨["/Root"], [], some []⟩ 1 0 [] = _
    exact hbc
  have hstep : (mkXSDParser leakSchema leakConfig).buildNode leakRootElem
      "" ⟨[], [], some []⟩ 0 0 =
      (match (mkXSDParser leakSchema leakConfig).parseComplexContent
          (some leakCtElem) "/Root" ⟨["/Root"], [], some []⟩ 1 0 with
       | .error e => .error e
       | .ok (children, st3) =>
           .ok ({ xpath := "/Root", name := "Root", kind := "section",
                  data_type := none, min_occurs := some 1,
                  max_occurs := some "1", repeatable := false,
                  enum_values := [], description := none,
                  validations := [], notes := [], children := children },
                { visited := st3.visited.erase "/Root",
                  refChain := st3.refChain, cache := st3.cache })) := by
    rw [XSDParser.buildNode, dif_neg (by decide)]
    rfl
  rw [hstep, hpcc]
  rfl

/-- Concrete run of `parse` over `leakSchema`. -/
theorem leak_parse_eval :
    (mkXSDParser leakSchema leakConfig).parse "Root" = .ok leakTree := by
  have hp1 : (mkXSDParser leakSchema leakConfig).parse "Root" =
      (match (mkXSDParser leakSchema leakConfig).buildNode leakRootElem
          "" ⟨[], [], some []⟩ 0 0 with
       | .error e => .error e
       | .ok (node, _) => .ok node) := by
    rw [XSDParser.parse]
    rfl
  rw [hp1, leak_buildNode_eval]

/-- C5: the reference chain is NOT always restored. On the concrete
schema `leakSchema` (whose root references `B` twice, so the second
resolution is served from the memo cache with `cache_resolved_refs`
enabled), the top-level builder invocation starts with an empty reference
chain and returns with `B` still in it: the cache-hit path of
`_resolve_reference` inserts the referenced name into the chain but
reports `added_to_chain = False`, so the caller never removes it. -/
theorem buildNode_refChain_leak :
    (mkXSDParser leakSchema leakConfig).buildNode leakRootElem ""
        ⟨[], [], some []⟩ 0 0 =
      .ok (leakTree, ⟨[], ["B"], some leakCache⟩) ∧
    ((mkXSDParser leakSchema leakConfig).resolveReference refBElem []
        (some leakCache)).addedToChain = false ∧
    ((mkXSDParser leakSchema leakConfig).resolveReference refBElem []
        (some leakCache)).refChain = ["B"] ∧
    (["B"] : List String) ≠ ([] : List String) := by
  exact ⟨leak_buildNode_eval, rfl, rfl, by simp⟩

/-- C10: in any tree `parse` returns, no children list holds two
structurally equal nodes — the `child_node not in children` test keeps
only the first of two equal siblings. -/
theorem built_children_nodup (config : ParserConfig) (schema : XElem)
    (rootName : String) (tree : RuleNode)
    (hparse : (mkXSDParser schema config).parse rootName = .ok tree) :
    ∀ n ∈ tree.iterNodes, n.children.Nodup := by
  rw [XSDParser.parse] at hparse
  rcases hfe : (mkXSDParser schema config).findElement rootName with
    _ | element
  · rw [hfe] at hparse
    exact Except.noConfusion hparse
  · rw [hfe] at hparse
    try dsimp only [] at hparse
    rcases hbn : (mkXSDParser schema config).buildNode element ""
        ⟨[], [], (mkXSDParser schema config).reference_cache⟩ 0 0 with
      e | pr
    · rw [hbn] at hparse
      exact Except.noConfusion hparse
    · rcases pr with ⟨node, st2⟩
      rw [hbn] at hparse
      try dsimp only [] at hparse
      injection hparse with h
      subst h
      exact ((buildNode_master (mkXSDParser schema config) element ""
        ⟨[], [], (mkXSDParser schema config).reference_cache⟩ 0 0).2
          node st2 hbn).2.2.2

/-- Witness for the C10 theorem: `leakSchema` declares the same child
twice, the parsed tree keeps a single copy, and every children list in it
is duplicate-free. -/
theorem built_children_nodup_witness :
    (mkXSDParser leakSchema leakConfig).parse "Root" = .ok leakTree ∧
    leakTree.children.length = 1 ∧
    (∀ n ∈ leakTree.iterNodes, n.children.Nodup) := by
  exact ⟨leak_parse_eval, rfl,
    built_children_nodup leakConfig leakSchema "Root" leakTree
      leak_parse_eval⟩
